import Mathlib

/-!
Verification development for the Kroma project backend core
(`scripts/backend.py`, `scripts/backend_api.py`, `scripts/agent_worker.py`).

The Python source is shallowly embedded: dictionaries parsed from JSON are
modelled by the inductive type `J` below, SQLite tables by Lean lists of row
structures, `uid()` by a counter threaded through the database state, and
RFC-3339 timestamp strings by integers (the serialized timestamps compare
lexicographically exactly as their instants compare numerically, so `≤` on
`Int` faithfully embeds the SQL string comparisons used by the code).

Floating point values are embedded as rationals: none of the verified
properties depends on rounding of binary floating point, only on which
branches the code takes and which rows it writes.
-/

namespace Kroma

/-- Embedded JSON value, the model of the Python objects that `json.load`
produces (dict / list / str / int / float / bool / None). -/
inductive J where
  | null
  | b (v : Bool)
  | i (v : Int)
  | f (v : Rat)
  | s (v : String)
  | arr (v : List J)
  | obj (v : List (String × J))
deriving Inhabited

/-- Test for the embedded `None` (Python `x is None`). -/
def J.isNull : J → Bool
  | J.null => true
  | _ => false

/-- A Python dict with string keys, as produced for JSON objects. -/
abbrev Dict := List (String × J)

/-- Lookup of a key in a dict: `d[k]` presence, first binding wins. -/
def dictFind (d : Dict) (k : String) : Option J :=
  (d.find? (fun kv => kv.1 = k)).map (fun kv => kv.2)

/-- Python `d.get(k)`: `None` when the key is absent. -/
def pyGet (d : Dict) (k : String) : J :=
  (dictFind d k).getD J.null

/-- Python `d.get(k, dflt)`. -/
def pyGetD (d : Dict) (k : String) (dflt : J) : J :=
  (dictFind d k).getD dflt

/-- Python truthiness of a JSON value (`bool(x)`). -/
def pyTruthy : J → Bool
  | J.null => false
  | J.b v => v
  | J.i v => v ≠ 0
  | J.f v => v ≠ 0
  | J.s v => v ≠ ""
  | J.arr v => ¬ v.isEmpty
  | J.obj v => ¬ v.isEmpty

/-- Python `a or b` on embedded values. -/
def pyOr (a b : J) : J :=
  if pyTruthy a then a else b

mutual

/-- Python `str(x)` on an embedded JSON value.  String values pass through
unchanged; for the scalar constants the exact Python spelling is used.  The
rendering of numbers and containers is a fixed deterministic choice of the
model (Python's `repr` differs in punctuation); no theorem below depends on
how a non-string value is rendered, only on the fact that the rendering is a
function of the value. -/
def pyStr : J → String
  | J.null => "None"
  | J.b true => "True"
  | J.b false => "False"
  | J.i v => toString v
  | J.f v => toString v
  | J.s v => v
  | J.arr v => "[" ++ pyStrList v ++ "]"
  | J.obj v => "\x7b" ++ pyStrPairs v ++ "\x7d"

/-- Renders the elements of an embedded list, comma separated. -/
def pyStrList : List J → String
  | [] => ""
  | [x] => pyStr x
  | x :: xs => pyStr x ++ ", " ++ pyStrList xs

/-- Renders the entries of an embedded dict, comma separated. -/
def pyStrPairs : List (String × J) → String
  | [] => ""
  | [(k, v)] => k ++ ": " ++ pyStr v
  | (k, v) :: xs => k ++ ": " ++ pyStr v ++ ", " ++ pyStrPairs xs

end

/-- Whitespace characters recognised by Python `str.strip()` (the ASCII ones;
the code under verification only feeds it ASCII status strings). -/
def pyIsSpace (c : Char) : Bool :=
  c = ' ' ∨ c = '\t' ∨ c = '\n' ∨ c = '\r' ∨ c = '\x0b' ∨ c = '\x0c'

/-- Python `s.strip()`. -/
def pyStrip (s : String) : String :=
  String.mk (((s.toList.dropWhile pyIsSpace).reverse.dropWhile pyIsSpace).reverse)

/-- Python `s.lower()` (ASCII case folding, which covers the status strings
the code compares). -/
def pyLower (s : String) : String :=
  String.mk (s.toList.map Char.toLower)

/-- Python `s.startswith(pre)`, as a character-list prefix test. -/
def pyStartswith (s pre : String) : Bool :=
  pre.toList.isPrefixOf s.toList

/-- Python `float(x)` on an embedded JSON value, `none` when the call raises.
Numbers and booleans convert; `None`, lists and dicts raise `TypeError`.
Numeric strings, which real `float` would parse, are modelled as failures:
no claim below involves string-valued numeric fields. -/
def pyFloat : J → Option Rat
  | J.i v => some (v : Rat)
  | J.f v => some v
  | J.b v => some (if v then 1 else 0)
  | _ => none

/-- Python `int(x)` truncation toward zero, `none` when the call raises. -/
def pyInt : J → Option Int
  | J.i v => some v
  | J.b v => some (if v then 1 else 0)
  | J.f v => some (Rat.floor v)
  | _ => none

/-- Python `round()` to an integer: round half to even. -/
def pyRound (q : Rat) : Int :=
  let n := Rat.floor q
  let r := q - (n : Rat)
  if r < 1/2 then n
  else if 1/2 < r then n + 1
  else if n % 2 = 0 then n else n + 1

/-- The source's `normalize_rel_path` (backend.py:47): coerce to string,
replace backslashes with forward slashes (a character-wise replacement,
since the pattern is the single backslash), strip surrounding whitespace. -/
def normalize_rel_path (value : String) : String :=
  pyStrip (String.mk (value.toList.map (fun ch => if ch = '\\' then '/' else ch)))

/-- The source's `mask_secret_value` (backend.py:144): short tokens become a
run of asterisks, longer tokens keep three characters at each end. -/
def mask_secret_value (secret_value : String) : String :=
  let raw := secret_value
  if raw.length ≤ 6 then String.mk (List.replicate raw.length '*')
  else String.mk (raw.toList.take 3) ++ "***" ++
    String.mk (raw.toList.drop (raw.length - 3))

/-- The source's `derive_run_status` (backend.py:2061): classify a run-log
document by its jobs' status strings. -/
def derive_run_status (run_data : Dict) : String :=
  let jobs := pyGetD run_data "jobs" (J.arr [])
  match jobs with
  | J.arr items =>
    let statuses := items.filterMap (fun j =>
      match j with
      | J.obj jd => some (pyLower (pyStrip (pyStr (pyGetD jd "status" (J.s "")))))
      | _ => none)
    if statuses.any (fun s => pyStartswith s "failed") then "failed"
    else if ¬ statuses.isEmpty ∧ statuses.all (fun s => s = "done" ∨ s = "planned") then "ok"
    else "partial"
  | _ => "unknown"

/-- One extracted cost event row, as built by `extract_cost_event_rows`. -/
structure CostEvRow where
  provider_code : J
  operation_code : J
  units : J
  cost_usd : J
  currency : J
  meta : J

/-- Cost events taken from the explicit `cost_events[]` list
(backend.py:1109-1132). -/
def costEventsFromList (run_data : Dict) : List CostEvRow :=
  match pyGet run_data "cost_events" with
  | J.arr raw_events =>
    raw_events.filterMap (fun item =>
      match item with
      | J.obj itemD =>
        let provider_code := pyOr (pyGet itemD "provider_code")
          (pyOr (pyGet itemD "provider") (J.s "unknown"))
        let operation_code := pyOr (pyGet itemD "operation_code")
          (pyOr (pyGet itemD "operation")
            (pyOr (pyGet itemD "event_type") (J.s "legacy_event")))
        let units := pyOr (pyGet itemD "units")
          (pyOr (pyGet itemD "quantity") (J.i 0))
        let cost_usd0 := pyGet itemD "cost_usd"
        let cost_usd :=
          if cost_usd0.isNull ∧ ¬ (pyGet itemD "amount_cents").isNull then
            match pyFloat (pyGet itemD "amount_cents") with
            | some q => J.f (q / 100)
            | none => J.i 0
          else cost_usd0
        some {
          provider_code := provider_code
          operation_code := operation_code
          units := units
          cost_usd := pyOr cost_usd (J.i 0)
          currency := pyOr (pyGet itemD "currency") (J.s "USD")
          meta := J.obj itemD }
      | _ => none)
  | _ => []

/-- Cost event derived from the `generation` object (backend.py:1134-1156),
present exactly when `generation` is a dict whose derived cost is not `None`. -/
def costEventsFromGeneration (run_data : Dict) : List CostEvRow :=
  match pyGet run_data "generation" with
  | J.obj g =>
    let provider_code := pyOr (pyGet g "provider_code")
      (pyOr (pyGet g "provider") (J.s "openai"))
    let operation_code := pyOr (pyGet g "operation_code") (J.s "image_generation")
    let units := pyOr (pyGet g "units")
      (pyOr (pyGet g "images") (pyOr (pyGet g "count") (J.i 0)))
    let cost_usd0 := pyGet g "cost_usd"
    let cost_usd :=
      if cost_usd0.isNull ∧ ¬ (pyGet g "amount_cents").isNull then
        match pyFloat (pyGet g "amount_cents") with
        | some q => J.f (q / 100)
        | none => J.i 0
      else cost_usd0
    if ¬ cost_usd.isNull then
      [{ provider_code := provider_code
         operation_code := operation_code
         units := units
         cost_usd := cost_usd
         currency := pyOr (pyGet g "currency") (J.s "USD")
         meta := J.obj g }]
    else []
  | _ => []

/-- Cost event derived from the top-level `cost_usd` / `amount_cents` fields
(backend.py:1158-1175); the caller appends it only when nothing else was
extracted. -/
def costEventsFromTopLevel (run_data : Dict) : List CostEvRow :=
  let top0 := pyGet run_data "cost_usd"
  let top_level_cost :=
    if top0.isNull ∧ ¬ (pyGet run_data "amount_cents").isNull then
      match pyFloat (pyGet run_data "amount_cents") with
      | some q => J.f (q / 100)
      | none => J.null
    else top0
  if ¬ top_level_cost.isNull then
    [{ provider_code := J.s "unknown"
       operation_code := J.s "run_total"
       units := J.i 1
       cost_usd := top_level_cost
       currency := pyOr (pyGet run_data "currency") (J.s "USD")
       meta := J.obj [("source", J.s "run_log_top_level")] }]
  else []

/-- The source's `extract_cost_event_rows` (backend.py:1106): the explicit
list and the `generation` object both append events; the top-level fields are
consulted only when `events` is still empty after both. -/
def extract_cost_event_rows (run_data : Dict) : List CostEvRow :=
  let events := costEventsFromList run_data ++ costEventsFromGeneration run_data
  if events.isEmpty then events ++ costEventsFromTopLevel run_data
  else events

/-- Python `x or d` for a nullable integer column (`int(row[col] or d)`):
both SQL NULL and 0 are falsy and fall through to the default. -/
def pyOrInt (v : Option Int) (d : Int) : Int :=
  match v with
  | some n => if n = 0 then d else n
  | none => d

/-- One row of the `agent_instructions` table, with the columns the worker
and the REST handlers read and write.  Timestamp columns are embedded as
integers, `uid()` primary keys as naturals. -/
structure InstrRow where
  id : Nat
  status : String
  priority : Int
  created_at : Int
  updated_at : Int
  queued_at : Option Int
  started_at : Option Int
  finished_at : Option Int
  next_attempt_at : Option Int
  locked_by : Option String
  locked_at : Option Int
  attempts : Option Int
  max_attempts : Option Int
  last_error : Option String
  confirmed_by_user_id : Option String
deriving DecidableEq, Repr

/-- SQL `col IS NULL OR col <= bound` for a nullable timestamp column. -/
def optLe (t : Option Int) (bound : Int) : Bool :=
  match t with
  | none => true
  | some v => v ≤ bound

/-- The WHERE clause of the reservation SELECT (agent_worker.py:56-58):
status `queued`, `next_attempt_at` null or due, `locked_at` null or stale. -/
def eligibleRow (now lock_cutoff : Int) (r : InstrRow) : Bool :=
  (r.status = "queued" : Bool) && optLe r.next_attempt_at now &&
    optLe r.locked_at lock_cutoff

/-- Strict comparison for `ORDER BY priority ASC, created_at ASC`. -/
def lexLt (a b : InstrRow) : Bool :=
  a.priority < b.priority ∨ (a.priority = b.priority ∧ a.created_at < b.created_at)

/-- The reservation SELECT ... LIMIT 1 (agent_worker.py:52-63): the first
eligible row in `priority ASC, created_at ASC` order.  SQLite leaves the
choice among rows that tie on both sort keys unspecified; the model fixes it
to the earliest such row in table order. -/
def selectNext (rows : List InstrRow) (now lock_cutoff : Int) : Option InstrRow :=
  rows.foldl (fun acc r =>
    if eligibleRow now lock_cutoff r then
      match acc with
      | none => some r
      | some a => if lexLt r a then some r else some a
    else acc) none

/-- The assignments of the conditional reservation UPDATE
(agent_worker.py:70-76) applied to one row. -/
def claimRow (r : InstrRow) (worker_id : String) (now : Int) : InstrRow :=
  { r with
    status := "running"
    started_at := some (r.started_at.getD now)
    updated_at := now
    locked_by := some worker_id
    locked_at := some now
    next_attempt_at := none }

/-- The conditional UPDATE gated on `id = ? AND status = 'queued'`
(agent_worker.py:68-80): returns the SQL rowcount together with the updated
table. -/
def claimUpdate (rows : List InstrRow) (i : Nat) (worker_id : String) (now : Int) :
    Nat × List InstrRow :=
  (rows.countP (fun r => decide (r.id = i ∧ r.status = "queued")),
   rows.map (fun r =>
     if r.id = i ∧ r.status = "queued" then claimRow r worker_id now else r))

/-- The source's `reserve_next_instruction` (agent_worker.py:46-85): select
the next eligible row, conditionally claim it, and return the re-read row
only when the UPDATE reported exactly one affected row. -/
def reserve_next_instruction (rows : List InstrRow) (worker_id : String)
    (max_locked_seconds now : Int) : Option InstrRow × List InstrRow :=
  let lock_cutoff := now - max_locked_seconds
  match selectNext rows now lock_cutoff with
  | none => (none, rows)
  | some row =>
    let rowcount := (claimUpdate rows row.id worker_id now).1
    let rows' := (claimUpdate rows row.id worker_id now).2
    if rowcount ≠ 1 then (none, rows')
    else (rows'.find? (fun r => decide (r.id = row.id)), rows')

/-- The event row the failure path of `process_instruction` appends. -/
structure FailureEvent where
  event_type : String
  error : String
  attempts : Int
  max_attempts : Int
  next_attempt_at : Option Int
deriving DecidableEq, Repr

/-- The dispatch-failure settlement of `process_instruction`
(agent_worker.py:238-264): bump `attempts`, requeue with linear backoff while
attempts remain, otherwise fail; clear the lease, record the error, and emit
a `retry_scheduled` or `error` event. -/
def settle_dispatch_failure (row : InstrRow)
    (default_max_attempts retry_backoff_seconds : Int) (err : String)
    (now : Int) : InstrRow × FailureEvent :=
  let attempts := pyOrInt row.attempts 0 + 1
  let max_attempts := pyOrInt row.max_attempts default_max_attempts
  let retryable := attempts < max_attempts
  let next_attempt_at :=
    if retryable then some (now + retry_backoff_seconds * attempts) else none
  let new_status := if retryable then "queued" else "failed"
  let row' := { row with
    status := new_status
    attempts := some attempts
    max_attempts := some max_attempts
    next_attempt_at := next_attempt_at
    finished_at := if new_status = "failed" then some now else row.finished_at
    updated_at := now
    last_error := some err
    locked_by := none
    locked_at := none }
  (row', { event_type := if retryable then "retry_scheduled" else "error"
           error := err
           attempts := attempts
           max_attempts := max_attempts
           next_attempt_at := next_attempt_at })

/-- The confirm handler's UPDATE (backend_api.py:1916-1927): unconditionally
queue the instruction, record the confirming user, and set `queued_at` only
when it was null. -/
def confirm_instruction (row : InstrRow) (user_id : String) (now : Int) : InstrRow :=
  { row with
    status := "queued"
    confirmed_by_user_id := some user_id
    queued_at := some (row.queued_at.getD now)
    updated_at := now }

/-- The cancel handler's UPDATE (backend_api.py:1977-1983): unconditionally
set status `canceled` and set `finished_at` only when it was null. -/
def cancel_instruction (row : InstrRow) (now : Int) : InstrRow :=
  { row with
    status := "canceled"
    finished_at := some (row.finished_at.getD now)
    updated_at := now }

/-- One row of the `asset_links` table. -/
structure AssetLinkRow where
  id : Nat
  project_id : String
  parent_asset_id : String
  child_asset_id : String
  link_type : String
  created_at : Int
deriving DecidableEq, Repr

/-- The `asset_links` table together with the `uid()` supply. -/
structure LinksDB where
  links : List AssetLinkRow
  ctr : Nat
deriving DecidableEq, Repr

/-- Python `s or d` for strings. -/
def pyOrStr (s d : String) : String :=
  if s = "" then d else s

/-- The permitted `asset_links.link_type` values. -/
def linkTypeAllowed (t : String) : Bool :=
  t = "derived_from" ∨ t = "variant_of" ∨ t = "mask_for" ∨ t = "reference_of"

/-- The link-type coercion of `_upsert_asset_link` (backend.py:583-585):
`str(link_type or "derived_from").strip().lower() or "derived_from"`, then
anything outside the allowed set becomes `derived_from`. -/
def safeLinkType (link_type : String) : String :=
  let safe0 := pyLower (pyStrip (pyOrStr link_type "derived_from"))
  let safe1 := pyOrStr safe0 "derived_from"
  if linkTypeAllowed safe1 then safe1 else "derived_from"

/-- The source's `_upsert_asset_link` (backend.py:575): drop missing, empty
or self links, coerce the link type into the allowed set, and insert with
`ON CONFLICT(parent_asset_id, child_asset_id, link_type) DO NOTHING` (the
table declares that triple UNIQUE). -/
def upsert_asset_link (db : LinksDB) (project_id : String)
    (parent_asset_id child_asset_id : Option String) (link_type : String)
    (now : Int) : LinksDB :=
  match parent_asset_id, child_asset_id with
  | some p, some c =>
    if p = "" ∨ c = "" ∨ p = c then db
    else
      let safe_type := safeLinkType link_type
      if db.links.any (fun l =>
          l.parent_asset_id = p ∧ l.child_asset_id = c ∧ l.link_type = safe_type) then db
      else
        { links := db.links ++ [{
            id := db.ctr
            project_id := project_id
            parent_asset_id := p
            child_asset_id := c
            link_type := safe_type
            created_at := now }]
          ctr := db.ctr + 1 }
  | _, _ => db

/-- Embeds an `Option String` column value as the JSON it serializes to. -/
def optStrJ : Option String → J
  | some s => J.s s
  | none => J.null

/-- Python `d[k] = v` for an embedded dict: replace in place or append. -/
def dictSet (d : Dict) (k : String) (v : J) : Dict :=
  if d.any (fun kv => kv.1 = k) then
    d.map (fun kv => if kv.1 = k then (k, v) else kv)
  else d ++ [(k, v)]

/-- Python `d.update(e)` for embedded dicts. -/
def dictUpdate (d e : Dict) : Dict :=
  e.foldl (fun acc kv => dictSet acc kv.1 kv.2) d

/-- One row of the `assets` table. -/
structure AssetRow where
  id : Nat
  project_id : String
  run_id : Option Nat
  job_id : Option Nat
  candidate_id : Option Nat
  asset_kind : String
  kind : String
  rel_path : String
  storage_uri : String
  sha256 : Option String
  meta_json : Dict
  metadata_json : Dict
  created_at : Int

/-- One row of the `runs` table. -/
structure RunRow where
  id : Nat
  project_id : String
  run_log_path : String
  mode : String
  run_mode : String
  stage : String
  time_of_day : String
  weather : String
  model : String
  model_name : String
  image_size : String
  image_quality : String
  status : String
  meta_json : Dict
  settings_snapshot_json : Dict
  created_at : Int

/-- One row of the `run_jobs` table. -/
structure JobRow where
  id : Nat
  run_id : Nat
  job_key : String
  status : String
  selected_candidate : Option Int
  selected_candidate_index : Option Int
  final_output : Option String
  final_asset_id : Option Nat
  prompt_text : String
  meta_json : J
  created_at : Int

/-- One row of the legacy `run_job_candidates` table. -/
structure CandRow where
  id : Nat
  job_id : Nat
  candidate_index : Int
  status : String
  output_path : Option String
  final_output_path : Option String
  rank_hard_failures : Int
  rank_soft_warnings : Int
  rank_avg_chroma_exceed : Rat
  meta_json : J
  created_at : Int

/-- One row of the canonical `run_candidates` table. -/
structure RunCandRow where
  id : Nat
  job_id : Nat
  candidate_index : Int
  status : String
  output_asset_id : Option Nat
  final_asset_id : Option Nat
  rank_hard_failures : Int
  rank_soft_warnings : Int
  rank_avg_chroma_exceed : Rat
  meta_json : J
  created_at : Int

/-- One row of the `quality_reports` table. -/
structure QRRow where
  id : Nat
  project_id : String
  run_id : Option Nat
  run_job_id : Option Nat
  run_job_candidate_id : Option Nat
  job_id : Option Nat
  candidate_id : Option Nat
  report_type : String
  summary_json : Dict
  rating : Int
  notes : String
  created_at : Int

/-- One row of the `cost_events` table. -/
structure CostRow where
  id : Nat
  project_id : String
  run_id : Option Nat
  amount_cents : Int
  currency : String
  event_type : String
  notes : String
  provider_code : String
  operation_code : String
  units : Rat
  cost_usd : Rat
  meta_json : Dict
  created_at : Int

/-- One row of the `audit_events` table. -/
structure AuditRow where
  id : Nat
  project_id : Option String
  actor_user_id : Option String
  action : String
  event_code : String
  target_type : Option String
  target_id : Option String
  payload_json : Dict
  created_at : Int

/-- The slice of the database state the run ingest touches, together with
the `uid()` supply embedded as a counter: every id the code draws from
`uuid4` is fresh, which the model realises by handing out `ctr` and
incrementing it. -/
structure DB where
  runs : List RunRow
  run_jobs : List JobRow
  run_job_candidates : List CandRow
  run_candidates : List RunCandRow
  assets : List AssetRow
  quality_reports : List QRRow
  cost_events : List CostRow
  audit_events : List AuditRow
  ctr : Nat

/-- The match predicate of the `upsert_asset` SELECT (backend.py:1990-1999):
same project and either path column equal to the normalized path. -/
def assetMatches (project_id clean : String) (a : AssetRow) : Bool :=
  a.project_id = project_id ∧ (a.rel_path = clean ∨ a.storage_uri = clean)

/-- ORDER BY `created_at DESC LIMIT 1` over the already-filtered candidates.
SQLite leaves the choice among equal timestamps unspecified; the model takes
the latest such row in table order. -/
def pickLatestAsset (l : List AssetRow) : Option AssetRow :=
  l.foldl (fun acc a =>
    match acc with
    | none => some a
    | some b => if b.created_at ≤ a.created_at then some a else some b) none

/-- The source's `upsert_asset` (backend.py:1962-2058).  The filesystem is
abstracted by `fs`, which yields the SHA-256 of the file at a repo-relative
path when it exists as a regular file.  An existing row matched by
`(project_id, rel_path OR storage_uri)` is updated — every listed column is
overwritten with the new call's values — otherwise a fresh row is inserted;
the returned id is the matched or inserted row's id. -/
def upsert_asset (db : DB) (project_id : String)
    (run_id job_id candidate_id : Option Nat) (asset_kind rel_path : String)
    (fs : String → Option String) (compute_hashes : Bool)
    (extra_meta : Option Dict) (ts : Int) : Option Nat × DB :=
  let clean_rel := normalize_rel_path rel_path
  if clean_rel = "" then (none, db)
  else
    let file_hash := if compute_hashes then fs clean_rel else none
    let payload := dictUpdate [("path_exists", J.b (fs clean_rel).isSome)]
      (extra_meta.getD [])
    match pickLatestAsset (db.assets.filter (assetMatches project_id clean_rel)) with
    | some existing =>
      (some existing.id,
       { db with assets := db.assets.map (fun a =>
           if a.id = existing.id then
             { a with
               run_id := run_id
               job_id := job_id
               candidate_id := candidate_id
               asset_kind := asset_kind
               kind := asset_kind
               rel_path := clean_rel
               storage_uri := clean_rel
               sha256 := file_hash
               meta_json := payload
               metadata_json := payload
               created_at := ts }
           else a) })
    | none =>
      (some db.ctr,
       { db with
         assets := db.assets ++ [{
           id := db.ctr
           project_id := project_id
           run_id := run_id
           job_id := job_id
           candidate_id := candidate_id
           asset_kind := asset_kind
           kind := asset_kind
           rel_path := clean_rel
           storage_uri := clean_rel
           sha256 := file_hash
           meta_json := payload
           metadata_json := payload
           created_at := ts }]
         ctr := db.ctr + 1 })

/-- The source's `insert_quality_report` (backend.py:1014), called with an
explicit `created_at`; the summary argument is a dict at every call site the
ingest makes. -/
def insert_quality_report (db : DB) (project_id : String)
    (run_id job_id candidate_id : Option Nat) (report_type : String)
    (summary : Dict) (ts : Int) : DB :=
  let rating := (pyInt (pyGetD summary "rating" (J.i 0))).getD 0
  let notes := pyStr (pyOr (pyGetD summary "notes" (J.s "")) (J.s ""))
  { db with
    quality_reports := db.quality_reports ++ [{
      id := db.ctr
      project_id := project_id
      run_id := run_id
      run_job_id := job_id
      run_job_candidate_id := candidate_id
      job_id := job_id
      candidate_id := candidate_id
      report_type := pyOrStr report_type "output_guard"
      summary_json := summary
      rating := rating
      notes := notes
      created_at := ts }]
    ctr := db.ctr + 1 }

/-- The source's `insert_cost_event` (backend.py:1055), taking the embedded
values the ingest passes out of an extracted cost-event row; `amount_cents`
is recomputed as `round(cost_usd * 100)` with round-half-to-even. -/
def insert_cost_event (db : DB) (project_id : String) (run_id : Option Nat)
    (provider_code operation_code units cost_usd currency meta : J)
    (ts : Int) : DB :=
  let safe_provider := pyOrStr (pyStrip (pyStr (pyOr provider_code (J.s "unknown")))) "unknown"
  let safe_operation := pyOrStr (pyStrip (pyStr (pyOr operation_code (J.s "legacy_event")))) "legacy_event"
  let safe_currency := pyOrStr (pyStrip (pyStr (pyOr currency (J.s "USD")))) "USD"
  let safe_meta : Dict := match meta with | J.obj m => m | _ => []
  let safe_units := (pyFloat (pyOr units (J.i 0))).getD 0
  let safe_cost_usd := (pyFloat (pyOr cost_usd (J.i 0))).getD 0
  let amount_cents := pyRound (safe_cost_usd * 100)
  let notes := pyStr (pyOr (pyGetD safe_meta "notes" (J.s "")) (J.s ""))
  { db with
    cost_events := db.cost_events ++ [{
      id := db.ctr
      project_id := project_id
      run_id := run_id
      amount_cents := amount_cents
      currency := safe_currency
      event_type := safe_operation
      notes := notes
      provider_code := safe_provider
      operation_code := safe_operation
      units := safe_units
      cost_usd := safe_cost_usd
      meta_json := safe_meta
      created_at := ts }]
    ctr := db.ctr + 1 }

/-- The source's `emit_audit_event` (backend.py:1179). -/
def emit_audit_event (db : DB) (project_id actor_user_id : Option String)
    (event_code : String) (payload : Dict)
    (target_type target_id : Option String) (ts : Int) : DB :=
  let safe_code := pyOrStr (pyStrip (pyOrStr event_code "legacy_event")) "legacy_event"
  { db with
    audit_events := db.audit_events ++ [{
      id := db.ctr
      project_id := project_id
      actor_user_id := actor_user_id
      action := safe_code
      event_code := safe_code
      target_type := target_type
      target_id := target_id
      payload_json := payload
      created_at := ts }]
    ctr := db.ctr + 1 }

/-- Deleting a run row (backend.py:2092-2095): the explicit deletes of its
quality reports and cost events, the `DELETE FROM runs`, and the schema's
`ON DELETE CASCADE` from runs to `run_jobs` and from `run_jobs` to both
candidate tables. -/
def deleteRun (db : DB) (rid : Nat) : DB :=
  let deadJobs := (db.run_jobs.filter (fun j => j.run_id = rid)).map (fun j => j.id)
  { db with
    quality_reports := db.quality_reports.filter (fun q => ¬ q.run_id = some rid)
    cost_events := db.cost_events.filter (fun c => ¬ c.run_id = some rid)
    runs := db.runs.filter (fun r => ¬ r.id = rid)
    run_jobs := db.run_jobs.filter (fun j => ¬ j.run_id = rid)
    run_job_candidates := db.run_job_candidates.filter (fun c => ¬ deadJobs.contains c.job_id)
    run_candidates := db.run_candidates.filter (fun c => ¬ deadJobs.contains c.job_id) }

/-- Running totals the ingest reports (backend.py:2129-2133), threaded with
the database through the job and candidate loops. -/
structure IngestSt where
  db : DB
  inserted_jobs : Nat
  inserted_candidates : Nat
  inserted_assets : Nat
  quality_reports_written : Nat
  cost_events_written : Nat

/-- The synthetic candidate built when a job has no candidate list
(backend.py:2170-2181). -/
def syntheticCandidate (jd : Dict) : J :=
  J.obj [
    ("candidate_index", J.i 1),
    ("status", J.s (pyStr (pyGetD jd "status" (J.s "")))),
    ("output", pyGet jd "output"),
    ("final_output", pyGet jd "final_output"),
    ("rank", J.obj [
      ("hard_failures", J.i 0),
      ("soft_warnings", J.i 0),
      ("avg_chroma_exceed", J.f 0)])]

/-- Normalizes an optional path field the way the ingest does:
`normalize_rel_path(str(x or "")) or None`. -/
def optPath (v : J) : Option String :=
  let s := normalize_rel_path (pyStr (pyOr v (J.s "")))
  if s = "" then none else some s

/-- The candidate list the job loop iterates (backend.py:2168-2181): the
job's `candidates` when it is a non-empty list, else the one synthetic
candidate. -/
def candListOf (jd : Dict) : List J :=
  match pyGetD jd "candidates" (J.arr []) with
  | J.arr l => if l.isEmpty then [syntheticCandidate jd] else l
  | _ => [syntheticCandidate jd]

/-- The pure values the candidate loop derives from one candidate dict
(backend.py:2186-2191 and the rank projections), as functions of the running
candidate count.  The `int()`/`float()` conversions of `candidate_index` and
the rank fields are embedded with a default of 0 where real Python would
raise; theorems about the ingest therefore restrict to documents
`ingestSafe` below accepts, on which model and source agree. -/
structure CandVals where
  candidate_index : Int
  output_path : Option String
  final_output_path : Option String
  hard : Int
  soft : Int
  avg : Rat
  status : String

/-- Computes the `CandVals` of a candidate dict. -/
def candVals (prevCands : Nat) (c : Dict) : CandVals :=
  let rank : Dict := match pyGet c "rank" with | J.obj r => r | _ => []
  { candidate_index := (pyInt (pyGetD c "candidate_index" (J.i (prevCands + 1)))).getD 0
    output_path := optPath (pyGet c "output")
    final_output_path := optPath (pyGet c "final_output")
    hard := (pyInt (pyOr (pyGetD rank "hard_failures" (J.i 0)) (J.i 0))).getD 0
    soft := (pyInt (pyOr (pyGetD rank "soft_warnings" (J.i 0)) (J.i 0))).getD 0
    avg := (pyFloat (pyOr (pyGetD rank "avg_chroma_exceed" (J.f 0)) (J.f 0))).getD 0
    status := pyStr (pyGetD c "status" (J.s "")) }

/-- First stage of the candidate loop body (backend.py:2184-2213): draw the
`uid()`, INSERT the `run_job_candidates` row, bump the candidate counter. -/
def candInsert (jobId : Nat) (ts : Int) (c : Dict) (v : CandVals)
    (candidate_id : Nat) (st : IngestSt) : IngestSt :=
  let db1 := { st.db with ctr := st.db.ctr + 1 }
  { st with
    db := { db1 with run_job_candidates := db1.run_job_candidates ++ [{
      id := candidate_id
      job_id := jobId
      candidate_index := v.candidate_index
      status := v.status
      output_path := v.output_path
      final_output_path := v.final_output_path
      rank_hard_failures := v.hard
      rank_soft_warnings := v.soft
      rank_avg_chroma_exceed := v.avg
      meta_json := J.obj c
      created_at := ts }] }
    inserted_candidates := st.inserted_candidates + 1 }

/-- Second stage of the candidate loop body (backend.py:2215-2240): upsert
the output asset and, when distinct, the final-output asset; returns the
two asset ids. -/
def candAssets (project_id : String) (runId jobId candidate_id : Nat)
    (v : CandVals) (fs : String → Option String) (compute_hashes : Bool)
    (ts : Int) (st : IngestSt) : (Option Nat × Option Nat) × IngestSt :=
  let step1 :=
    match v.output_path with
    | some p =>
      let r := upsert_asset st.db project_id (some runId) (some jobId)
        (some candidate_id) "candidate_output" p fs compute_hashes none ts
      (r.1, r.2, st.inserted_assets + 1)
    | none => (none, st.db, st.inserted_assets)
  let output_asset_id := step1.1
  let db3 := step1.2.1
  let assets1 := step1.2.2
  let step2 :=
    match v.final_output_path with
    | some q =>
      if v.output_path ≠ some q then
        let r := upsert_asset db3 project_id (some runId) (some jobId)
          (some candidate_id) "candidate_final_output" q fs compute_hashes none ts
        (r.1, r.2, assets1 + 1)
      else (output_asset_id, db3, assets1)
    | none => (none, db3, assets1)
  ((output_asset_id, step2.1), { st with db := step2.2.1, inserted_assets := step2.2.2 })

/-- Third stage of the candidate loop body (backend.py:2242-2295): insert
(or, on an id conflict, update) the canonical `run_candidates` row and
write the per-candidate quality report. -/
def candFinish (project_id : String) (runId jobId candidate_id : Nat)
    (c : Dict) (v : CandVals) (output_asset_id final_asset_id : Option Nat)
    (ts : Int) (st : IngestSt) : IngestSt :=
  let rcRow : RunCandRow := {
    id := candidate_id
    job_id := jobId
    candidate_index := v.candidate_index
    status := v.status
    output_asset_id := output_asset_id
    final_asset_id := final_asset_id
    rank_hard_failures := v.hard
    rank_soft_warnings := v.soft
    rank_avg_chroma_exceed := v.avg
    meta_json := J.obj c
    created_at := ts }
  let db5 :=
    if st.db.run_candidates.any (fun r => r.id = candidate_id) then
      { st.db with run_candidates := st.db.run_candidates.map (fun r =>
          if r.id = candidate_id then { rcRow with created_at := r.created_at } else r) }
    else { st.db with run_candidates := st.db.run_candidates ++ [rcRow] }
  let report_summary : Dict :=
    [("status", J.s v.status),
     ("rank", J.obj [
       ("hard_failures", J.i v.hard),
       ("soft_warnings", J.i v.soft),
       ("avg_chroma_exceed", J.f v.avg)]),
     ("output_path", optStrJ v.output_path),
     ("final_output_path", optStrJ v.final_output_path)]
    ++ (match pyGet c "output_guard" with | J.obj og => [("output_guard", J.obj og)] | _ => [])
    ++ (match pyGet c "qa" with | J.obj qa => [("qa", J.obj qa)] | _ => [])
  { st with
    db := insert_quality_report db5 project_id (some runId) (some jobId)
      (some candidate_id) "output_guard" report_summary ts
    quality_reports_written := st.quality_reports_written + 1 }

/-- The candidate loop body of `ingest_run` (backend.py:2183-2295), the
composition of the three stages above. -/
def processCandidate (project_id : String) (runId jobId : Nat)
    (fs : String → Option String) (compute_hashes : Bool) (ts : Int)
    (st : IngestSt) (candidate : J) : IngestSt :=
  match candidate with
  | J.obj c =>
    let v := candVals st.inserted_candidates c
    let candidate_id := st.db.ctr
    let stA := candInsert jobId ts c v candidate_id st
    let r := candAssets project_id runId jobId candidate_id v fs compute_hashes ts stA
    candFinish project_id runId jobId candidate_id c v r.1.1 r.1.2 ts r.2
  | _ => st

/-- First stage of the job loop body (backend.py:2135-2166): draw the
`uid()` and INSERT the `run_jobs` row; returns the new job id. -/
def jobInsert (runId : Nat) (idx : Nat) (ts : Int) (jd : Dict)
    (st : IngestSt) : Nat × IngestSt :=
  let job_key := pyStr (pyOr (pyGet jd "id") (J.s ("job_" ++ toString idx)))
  let job_id := st.db.ctr
  let db1 := { st.db with ctr := st.db.ctr + 1 }
  let selected_candidate : Option Int :=
    match pyGet jd "selected_candidate" with
    | J.i n => some n
    | J.b bv => some (if bv then 1 else 0)
    | _ => none
  let final_output_rel := optPath (pyGet jd "final_output")
  let prompt_text := pyStr (pyOr (pyGet jd "prompt") (pyOr (pyGet jd "prompt_text") (J.s "")))
  (job_id,
   { st with
     db := { db1 with run_jobs := db1.run_jobs ++ [{
       id := job_id
       run_id := runId
       job_key := job_key
       status := pyStr (pyGetD jd "status" (J.s ""))
       selected_candidate := selected_candidate
       selected_candidate_index := selected_candidate
       final_output := final_output_rel
       final_asset_id := none
       prompt_text := prompt_text
       meta_json := J.obj jd
       created_at := ts }] }
     inserted_jobs := st.inserted_jobs + 1 })

/-- Last stage of the job loop body (backend.py:2297-2319): when the job
carries a non-empty `final_output`, upsert that asset and back-link it from
the job row via the UPDATE with `COALESCE(final_output, ?)`. -/
def jobFinal (project_id : String) (runId job_id : Nat) (jd : Dict)
    (fs : String → Option String) (compute_hashes : Bool) (ts : Int)
    (st : IngestSt) : IngestSt :=
  let final_output := normalize_rel_path (pyStr (pyOr (pyGet jd "final_output") (J.s "")))
  if final_output = "" then st
  else
    let r := upsert_asset st.db project_id (some runId) (some job_id) none
      "job_final_output" final_output fs compute_hashes
      (some [("selected_candidate", pyGet jd "selected_candidate")]) ts
    let db3 := { r.2 with run_jobs := r.2.run_jobs.map (fun jr =>
      if jr.id = job_id then
        { jr with
          final_asset_id := r.1
          final_output := some (jr.final_output.getD final_output) }
      else jr) }
    { st with db := db3, inserted_assets := st.inserted_assets + 1 }

/-- The job loop body of `ingest_run` (backend.py:2135-2323): insert the
job row, run the candidate loop, then handle the job's `final_output`. -/
def processJob (project_id : String) (runId : Nat)
    (fs : String → Option String) (compute_hashes : Bool) (ts : Int)
    (idx : Nat) (st : IngestSt) (job : J) : IngestSt :=
  match job with
  | J.obj jd =>
    let r := jobInsert runId idx ts jd st
    let st2 := (candListOf jd).foldl
      (processCandidate project_id runId r.1 fs compute_hashes ts) r.2
    jobFinal project_id runId r.1 jd fs compute_hashes ts st2
  | _ => st

/-- The jobs list of a run-log document (backend.py:2125-2127):
`run_data.get("jobs", [])` coerced to `[]` when not a list. -/
def jobsOf (run_data : Dict) : List J :=
  match pyGetD run_data "jobs" (J.arr []) with
  | J.arr l => l
  | _ => []

/-- The `enumerate(jobs, start=1)` loop of `ingest_run`. -/
def processJobs (project_id : String) (runId : Nat)
    (fs : String → Option String) (compute_hashes : Bool) (ts : Int) :
    Nat → List J → IngestSt → IngestSt
  | _, [], st => st
  | idx, j :: rest, st =>
    processJobs project_id runId fs compute_hashes ts (idx + 1) rest
      (processJob project_id runId fs compute_hashes ts idx st j)

/-- The summary dict `ingest_run` returns (backend.py:2370-2380). -/
structure IngestReport where
  run_id : Nat
  run_log_path : String
  jobs : Nat
  candidates : Nat
  assets_upserted : Nat
  quality_reports_written : Nat
  cost_events_written : Nat
  status : String
deriving DecidableEq, Repr

/-- The run-level `output_guard` quality report of `ingest_run`
(backend.py:2325-2338). -/
def qrStage (project_id : String) (runId : Nat) (run_data : Dict) (ts : Int)
    (st : IngestSt) : IngestSt :=
  match pyGet run_data "output_guard" with
  | J.obj og =>
    { st with
      db := insert_quality_report st.db project_id (some runId) none none
        "output_guard" [("scope", J.s "run"), ("output_guard", J.obj og)] ts
      quality_reports_written := st.quality_reports_written + 1 }
  | _ => st

/-- The cost-event loop of `ingest_run` (backend.py:2340-2365): one
`insert_cost_event` per extracted row. -/
def costFold (project_id : String) (runId : Nat) (ts : Int)
    (st : IngestSt) (rows : List CostEvRow) : IngestSt :=
  rows.foldl (fun acc row =>
    { acc with
      db := insert_cost_event acc.db project_id (some runId) row.provider_code
        row.operation_code row.units row.cost_usd row.currency row.meta ts
      cost_events_written := acc.cost_events_written + 1 }) st

/-- The new `runs` row `ingest_run` INSERTs (backend.py:2097-2123). -/
def runRowOf (db1 : DB) (project_id : String) (run_data : Dict)
    (rel_run_log_path : String) (ts : Int) : RunRow :=
  let run_mode := pyStr (pyGetD run_data "mode" (J.s ""))
  let model_name := pyStr (pyGetD run_data "model" (J.s ""))
  let runMetaObj : Dict :=
    [("timestamp", pyGet run_data "timestamp"),
     ("generation", pyGet run_data "generation"),
     ("postprocess", pyGet run_data "postprocess"),
     ("output_guard", pyGet run_data "output_guard")]
  { id := db1.ctr
    project_id := project_id
    run_log_path := rel_run_log_path
    mode := run_mode
    run_mode := run_mode
    stage := pyStr (pyGetD run_data "stage" (J.s ""))
    time_of_day := pyStr (pyGetD run_data "time" (J.s ""))
    weather := pyStr (pyGetD run_data "weather" (J.s ""))
    model := model_name
    model_name := model_name
    image_size := pyStr (pyGetD run_data "size" (J.s ""))
    image_quality := pyStr (pyGetD run_data "quality" (J.s ""))
    status := derive_run_status run_data
    meta_json := runMetaObj
    settings_snapshot_json := runMetaObj
    created_at := ts }

/-- The ingest state right after the new run row is INSERTed: the run id
drawn, the row appended, and all running totals at zero
(backend.py:2097-2133). -/
def ingestSt0 (db1 : DB) (project_id : String) (run_data : Dict)
    (rel_run_log_path : String) (ts : Int) : IngestSt where
  db := { db1 with
    ctr := db1.ctr + 1
    runs := db1.runs ++ [runRowOf db1 project_id run_data rel_run_log_path ts] }
  inserted_jobs := 0
  inserted_candidates := 0
  inserted_assets := 0
  quality_reports_written := 0
  cost_events_written := 0

/-- The closing `run.ingested` audit event of `ingest_run`
(backend.py:2352-2368), with the summary counters as payload. -/
def auditStage (project_id : String) (runId : Nat) (rel_run_log_path : String)
    (ts : Int) (st3 : IngestSt) : DB :=
  emit_audit_event st3.db (some project_id) none "run.ingested"
    [("run_id", J.i (runId : Int)),
     ("run_log_path", J.s rel_run_log_path),
     ("jobs", J.i (st3.inserted_jobs : Int)),
     ("candidates", J.i (st3.inserted_candidates : Int)),
     ("assets_upserted", J.i (st3.inserted_assets : Int)),
     ("quality_reports_written", J.i (st3.quality_reports_written : Int)),
     ("cost_events_written", J.i (st3.cost_events_written : Int))]
    (some "run") (some (toString runId)) ts

/-- The summary dict `ingest_run` returns (backend.py:2370-2380), read off
the final ingest state. -/
def reportOf (runId : Nat) (rel_run_log_path stat : String)
    (st3 : IngestSt) : IngestReport where
  run_id := runId
  run_log_path := rel_run_log_path
  jobs := st3.inserted_jobs
  candidates := st3.inserted_candidates
  assets_upserted := st3.inserted_assets
  quality_reports_written := st3.quality_reports_written
  cost_events_written := st3.cost_events_written
  status := stat

/-- The body of `ingest_run` after the delete-existing-run step
(backend.py:2097-2381), starting from the database `db1` the INSERT of the
new run row sees: insert the run row, run the jobs loop, write the
run-level `output_guard` report, write the cost events, and emit the audit
event. -/
def ingestFrom (db1 : DB) (project_id : String) (run_data : Dict)
    (rel_run_log_path : String) (fs : String → Option String)
    (compute_hashes : Bool) (ts : Int) : DB × IngestReport :=
  let run_id := db1.ctr
  let st3 := costFold project_id run_id ts
    (qrStage project_id run_id run_data ts
      (processJobs project_id run_id fs compute_hashes ts 1 (jobsOf run_data)
        (ingestSt0 db1 project_id run_data rel_run_log_path ts)))
    (extract_cost_event_rows run_data)
  (auditStage project_id run_id rel_run_log_path ts st3,
   reportOf run_id rel_run_log_path (derive_run_status run_data) st3)

/-- The source's `ingest_run` (backend.py:2073-2381).  The run-log document
arrives already parsed (`run_data`) with its repo-relative storage path;
`ts` is the single `now_iso()` the function takes at entry, and `fs`
abstracts the filesystem for asset hashing.  An existing run for the same
`(project_id, run_log_path)` pair is deleted first (backend.py:2085-2095),
then the run is rebuilt by `ingestFrom`. -/
def ingest_run (db : DB) (project_id : String) (run_data : Dict)
    (rel_run_log_path : String) (fs : String → Option String)
    (compute_hashes : Bool) (ts : Int) : DB × IngestReport :=
  let db1 :=
    match db.runs.find? (fun r =>
        decide (r.project_id = project_id ∧ r.run_log_path = rel_run_log_path)) with
    | some ex => deleteRun db ex.id
    | none => db
  ingestFrom db1 project_id run_data rel_run_log_path fs compute_hashes ts

/-!
Claim-side definitions.  The definitions above are translated from the
source; the definitions in this section instead transcribe sentences of the
specification, so that a claim and the code can be compared formally.
-/

/-- C4 as the spec words it: extract cost events from `cost_events[]`, from
`generation`, or from the top level, in that precedence, stopping at the
first non-empty source. -/
def extract_cost_event_rows_claim (run_data : Dict) : List CostEvRow :=
  if ¬ (costEventsFromList run_data).isEmpty then costEventsFromList run_data
  else if ¬ (costEventsFromGeneration run_data).isEmpty then costEventsFromGeneration run_data
  else costEventsFromTopLevel run_data

/-- The job status strings of a run-log document, trimmed and lowercased,
taken from the dict entries of the jobs list. -/
def jobStatuses (run_data : Dict) : List String :=
  (jobsOf run_data).filterMap (fun j =>
    match j with
    | J.obj jd => some (pyLower (pyStrip (pyStr (pyGetD jd "status" (J.s "")))))
    | _ => none)

/-- C5 as the spec words it: `failed` when any status begins with `failed`,
`ok` when all statuses are in `{done, planned}`, `partial` otherwise. -/
def derive_run_status_claim (run_data : Dict) : String :=
  if (jobStatuses run_data).any (fun s => pyStartswith s "failed") then "failed"
  else if ∀ s ∈ jobStatuses run_data, s = "done" ∨ s = "planned" then "ok"
  else "partial"

/-- The run-log document of the C5 counterexample: a jobs list that is
present but empty. -/
def exDoc5 : Dict := [("jobs", J.arr [])]

/-- The run-log document of the C4 counterexample: one explicit cost event
and a generation object carrying its own cost. -/
def exDoc4 : Dict :=
  [("cost_events", J.arr [J.obj [("cost_usd", J.i 1)]]),
   ("generation", J.obj [("cost_usd", J.i 2)])]

/-- A terminal (`done`) instruction row, input of the C6 counterexample. -/
def exRowDone : InstrRow := {
  id := 1
  status := "done"
  priority := 100
  created_at := 0
  updated_at := 3
  queued_at := some 1
  started_at := some 2
  finished_at := some 3
  next_attempt_at := none
  locked_by := none
  locked_at := none
  attempts := some 1
  max_attempts := some 3
  last_error := none
  confirmed_by_user_id := none }

/-- An eligible queued instruction row, input of the C1 witness. -/
def exRowQueued : InstrRow := {
  id := 5
  status := "queued"
  priority := 10
  created_at := 0
  updated_at := 0
  queued_at := some 0
  started_at := none
  finished_at := none
  next_attempt_at := none
  locked_by := none
  locked_at := none
  attempts := none
  max_attempts := none
  last_error := none
  confirmed_by_user_id := none }

/-- An asset row with established link fields, input of the C7
counterexample. -/
def exAsset7 : AssetRow := {
  id := 0
  project_id := "p"
  run_id := some 7
  job_id := some 8
  candidate_id := some 9
  asset_kind := "candidate_output"
  kind := "candidate_output"
  rel_path := "img.png"
  storage_uri := "img.png"
  sha256 := some "h"
  meta_json := []
  metadata_json := []
  created_at := 0 }

/-- A one-asset database, input of the C7 counterexample. -/
def exDb7 : DB := {
  runs := []
  run_jobs := []
  run_job_candidates := []
  run_candidates := []
  assets := [exAsset7]
  quality_reports := []
  cost_events := []
  audit_events := []
  ctr := 1 }

/-!
Predicates and counting functions used by the run-ingest theorems.
-/

/-- A normalized asset row for `(pid, p)` is present: a row of the project
whose two path columns both hold `p`.  The first ingest of a document leaves
such a row for every path it upserts, which is what makes the second ingest
update instead of insert. -/
def SW (pid p : String) (l : List AssetRow) : Prop :=
  ∃ a ∈ l, a.project_id = pid ∧ a.rel_path = p ∧ a.storage_uri = p

/-- Either the argument normalizes to the empty path (the upsert is a no-op)
or a normalized row for it is present. -/
def SWArg (pid : String) (l : List AssetRow) (arg : String) : Prop :=
  normalize_rel_path arg = "" ∨ SW pid (normalize_rel_path arg) l

/-- `SWArg` for every argument of a list of upsert calls. -/
def SWAll (pid : String) (args : List String) (l : List AssetRow) : Prop :=
  ∀ p ∈ args, SWArg pid l p

/-- The asset-table sanity the ingest preserves: ids below the `uid()`
supply and pairwise distinct (ids are a PRIMARY KEY). -/
def AssetsInv (db : DB) : Prop :=
  (∀ a ∈ db.assets, a.id < db.ctr) ∧ (db.assets.map (fun a => a.id)).Nodup

/-- Well-formedness of a database state: every stored id and id reference
was drawn from the `uid()` supply, i.e. lies below the counter, and asset
ids are distinct.  Any state reachable from an empty database satisfies
this. -/
def DB.WF (db : DB) : Prop :=
  (∀ r ∈ db.runs, r.id < db.ctr) ∧
  (∀ j ∈ db.run_jobs, j.id < db.ctr ∧ j.run_id < db.ctr) ∧
  (∀ c ∈ db.run_job_candidates, c.job_id < db.ctr) ∧
  (∀ c ∈ db.run_candidates, c.id < db.ctr ∧ c.job_id < db.ctr) ∧
  (∀ q ∈ db.quality_reports, ∀ n, q.run_id = some n → n < db.ctr) ∧
  (∀ e ∈ db.cost_events, ∀ n, e.run_id = some n → n < db.ctr) ∧
  AssetsInv db

/-- Number of candidate rows one item of a candidate list produces. -/
def candObjCount : J → Nat
  | J.obj _ => 1
  | _ => 0

/-- Number of asset upserts the candidate loop performs for one candidate. -/
def candAssetCount : J → Nat
  | J.obj cd =>
    (match optPath (pyGet cd "output") with
     | some _ => 1
     | none => 0) +
    (match optPath (pyGet cd "final_output") with
     | some q => if optPath (pyGet cd "output") ≠ some q then 1 else 0
     | none => 0)
  | _ => 0

/-- The path arguments of the asset upserts the candidate loop performs. -/
def candUpsertArgs : J → List String
  | J.obj cd =>
    (match optPath (pyGet cd "output") with
     | some p => [p]
     | none => []) ++
    (match optPath (pyGet cd "final_output") with
     | some q => if optPath (pyGet cd "output") ≠ some q then [q] else []
     | none => [])
  | _ => []

/-- Number of job rows one item of the jobs list produces. -/
def jobObjCount : J → Nat
  | J.obj _ => 1
  | _ => 0

/-- Number of candidate rows one item of the jobs list produces. -/
def jobCandCount : J → Nat
  | J.obj jd => ((candListOf jd).map candObjCount).sum
  | _ => 0

/-- Number of asset upserts one item of the jobs list triggers, the job's
own `final_output` upsert included. -/
def jobAssetCount : J → Nat
  | J.obj jd =>
    ((candListOf jd).map candAssetCount).sum +
    (if normalize_rel_path (pyStr (pyOr (pyGet jd "final_output") (J.s ""))) = "" then 0 else 1)
  | _ => 0

/-- The path arguments of all asset upserts one item of the jobs list
triggers. -/
def jobUpsertArgs : J → List String
  | J.obj jd =>
    ((candListOf jd).map candUpsertArgs).flatten ++
    (let f := normalize_rel_path (pyStr (pyOr (pyGet jd "final_output") (J.s "")))
     if f = "" then [] else [f])
  | _ => []

/-- Number of job rows an ingest of the document inserts. -/
def docJobCount (d : Dict) : Nat := ((jobsOf d).map jobObjCount).sum

/-- Number of candidate rows an ingest of the document inserts. -/
def docCandCount (d : Dict) : Nat := ((jobsOf d).map jobCandCount).sum

/-- Number of asset upserts an ingest of the document performs. -/
def docAssetCount (d : Dict) : Nat := ((jobsOf d).map jobAssetCount).sum

/-- The path arguments of all asset upserts an ingest of the document
performs. -/
def docUpsertArgs (d : Dict) : List String := ((jobsOf d).map jobUpsertArgs).flatten

/-- Whether the document carries a dict-valued `output_guard`, hence one
run-level quality report (backend.py:2325-2338). -/
def ogCount (d : Dict) : Nat :=
  match pyGet d "output_guard" with | J.obj _ => 1 | _ => 0

/-- Number of quality reports an ingest of the document writes. -/
def docQRCount (d : Dict) : Nat := docCandCount d + ogCount d

/-- The `int()`/`float()` conversions of one candidate's rank dict all
succeed. -/
def rankSafe (c : Dict) : Bool :=
  let rank : Dict := match pyGet c "rank" with | J.obj r => r | _ => []
  (pyInt (pyOr (pyGetD rank "hard_failures" (J.i 0)) (J.i 0))).isSome &&
  (pyInt (pyOr (pyGetD rank "soft_warnings" (J.i 0)) (J.i 0))).isSome &&
  (pyFloat (pyOr (pyGetD rank "avg_chroma_exceed" (J.f 0)) (J.f 0))).isSome

/-- The conversions of one candidate dict succeed. -/
def candSafe (c : Dict) : Bool :=
  (match dictFind c "candidate_index" with
   | some v => (pyInt v).isSome
   | none => true) && rankSafe c

/-- The conversions of every candidate of one jobs-list item succeed. -/
def jobSafe : J → Bool
  | J.obj jd => (candListOf jd).all (fun c =>
      match c with
      | J.obj cd => candSafe cd
      | _ => true)
  | _ => true

/-- The `int()`/`float()` conversions `ingest_run` performs on the document
all succeed: real Python would raise on any other document and persist
nothing, so the ingest theorems quantify over these documents, on which the
total model agrees with the source. -/
def ingestSafe (run_data : Dict) : Bool :=
  (jobsOf run_data).all jobSafe

/-- Whether the `jobs` field of a run-log document is a list (an absent
field defaults to the empty list). -/
def jobsFieldIsList (d : Dict) : Bool :=
  match pyGetD d "jobs" (J.arr []) with
  | J.arr _ => true
  | _ => false

/-- The row invariant of the `asset_links` table stated by C10: parent and
child present and distinct, link type in the allowed set. -/
def LinkOK (l : AssetLinkRow) : Prop :=
  l.parent_asset_id ≠ "" ∧ l.child_asset_id ≠ "" ∧
  l.parent_asset_id ≠ l.child_asset_id ∧ linkTypeAllowed l.link_type = true

/-- The sanity the ingest loops maintain on the tables they re-read: asset
ids distinct and below the `uid()` supply, as are job and canonical
candidate ids (those tables are updated or conflict-checked by id). -/
def StInv (db : DB) : Prop :=
  AssetsInv db ∧
  (∀ j ∈ db.run_jobs, j.id < db.ctr) ∧
  (∀ rr ∈ db.run_candidates, rr.id < db.ctr)

/-- A value is the id of some job row of the given run. -/
def JobRef (runId : Nat) (db : DB) (v : Nat) : Prop :=
  ∃ j ∈ db.run_jobs, j.run_id = runId ∧ j.id = v

/-- What one slice of the ingest (a candidate, a job, or a run of them)
does to the state: it only appends to the job, candidate and
quality-report tables — `jobsN`, `candsN` and `qrsN` many rows, all tied to
the given run — leaves runs, cost events and audit events alone, performs
asset upserts whose path arguments are `args` (so a normalized row exists
for each afterwards, no asset row is ever lost, and when normalized rows
already existed for all of `args` the asset table does not grow), advances
the id supply, and adds the advertised amounts to the report counters. -/
def IngestStep (pid : String) (runId : Nat)
    (jobsN candsN rcandsN assetsN qrsN : Nat) (args : List String)
    (st r : IngestSt) : Prop :=
  (StInv st.db → StInv r.db) ∧
  st.db.ctr ≤ r.db.ctr ∧
  r.db.runs = st.db.runs ∧
  r.db.audit_events = st.db.audit_events ∧
  r.db.cost_events = st.db.cost_events ∧
  (StInv st.db → ∃ dj, r.db.run_jobs = st.db.run_jobs ++ dj ∧
    dj.length = jobsN ∧ ∀ x ∈ dj, x.run_id = runId ∧ st.db.ctr ≤ x.id) ∧
  (StInv st.db → ∃ dc, r.db.run_job_candidates = st.db.run_job_candidates ++ dc ∧
    dc.length = candsN ∧ ∀ x ∈ dc, JobRef runId r.db x.job_id) ∧
  (StInv st.db → ∃ dr, r.db.run_candidates = st.db.run_candidates ++ dr ∧
    dr.length = rcandsN ∧ ∀ x ∈ dr, JobRef runId r.db x.job_id) ∧
  (StInv st.db → ∃ dq, r.db.quality_reports = st.db.quality_reports ++ dq ∧
    dq.length = qrsN ∧ ∀ x ∈ dq, x.run_id = some runId) ∧
  (StInv st.db → ∀ pid' q, SW pid' q st.db.assets → SW pid' q r.db.assets) ∧
  (StInv st.db → SWAll pid args r.db.assets) ∧
  (StInv st.db → SWAll pid args st.db.assets →
    r.db.assets.length = st.db.assets.length) ∧
  r.inserted_jobs = st.inserted_jobs + jobsN ∧
  r.inserted_candidates = st.inserted_candidates + candsN ∧
  r.inserted_assets = st.inserted_assets + assetsN ∧
  r.quality_reports_written = st.quality_reports_written + qrsN ∧
  r.cost_events_written = st.cost_events_written

/-- The upsert path arguments of the asset stage, as a function of the
candidate's derived values. -/
def candValsArgs (v : CandVals) : List String :=
  (match v.output_path with
   | some p => [p]
   | none => []) ++
  (match v.final_output_path with
   | some q => if v.output_path ≠ some q then [q] else []
   | none => [])

/-- The number of asset upserts of the asset stage, as a function of the
candidate's derived values. -/
def candValsAssetCount (v : CandVals) : Nat :=
  (match v.output_path with
   | some _ => 1
   | none => 0) +
  (match v.final_output_path with
   | some q => if v.output_path ≠ some q then 1 else 0
   | none => 0)

/-!
Theorems.
-/

/-- Claim C8: masking renders tokens of length at most 6 as a same-length
run of asterisks, and longer tokens as their first three characters, `***`,
and their last three characters; in particular `"sk-abc-XYZ987"` masks to
`"sk-***987"`. -/
theorem mask_secret_value_policy :
    (∀ s : String, s.length ≤ 6 →
      mask_secret_value s = String.mk (List.replicate s.length '*')) ∧
    (∀ s : String, 6 < s.length →
      mask_secret_value s = String.mk (s.toList.take 3) ++ "***" ++
        String.mk ((s.toList.reverse.take 3).reverse)) ∧
    mask_secret_value "sk-abc-XYZ987" = "sk-***987" := by
  refine ⟨fun s h => ?_, fun s h => ?_, by decide⟩
  · simp [mask_secret_value, h]
  · have hlen : s.toList.length = s.length := rfl
    simp [mask_secret_value, Nat.not_le.mpr h, List.reverse_take, hlen]

/-- Witness for C8 at concrete inputs of both length classes. -/
theorem mask_secret_value_policy_witness :
    mask_secret_value "abc" = String.mk (List.replicate "abc".length '*') ∧
    mask_secret_value "sk-abc-XYZ987" = String.mk ("sk-abc-XYZ987".toList.take 3) ++
      "***" ++ String.mk (("sk-abc-XYZ987".toList.reverse.take 3).reverse) :=
  ⟨mask_secret_value_policy.1 "abc" (by decide),
   mask_secret_value_policy.2.1 "sk-abc-XYZ987" (by decide)⟩

/-- Claim C9: confirm unconditionally sets the status to `queued` and
records the confirming user, whatever the previous status was, and sets
`queued_at` only when it was previously null. -/
theorem confirm_instruction_unconditional (row : InstrRow) (u : String) (now : Int) :
    (confirm_instruction row u now).status = "queued" ∧
    (confirm_instruction row u now).confirmed_by_user_id = some u ∧
    (row.queued_at = none → (confirm_instruction row u now).queued_at = some now) ∧
    (∀ t, row.queued_at = some t → (confirm_instruction row u now).queued_at = some t) := by
  refine ⟨rfl, rfl, fun h => ?_, fun t h => ?_⟩ <;> simp [confirm_instruction, h]

/-- Witness for C9: confirming an already-done instruction requeues it and
keeps its original `queued_at`. -/
theorem confirm_instruction_unconditional_witness :
    (confirm_instruction exRowDone "u1" 9).status = "queued" ∧
    (confirm_instruction exRowDone "u1" 9).queued_at = some 1 :=
  ⟨(confirm_instruction_unconditional exRowDone "u1" 9).1,
   (confirm_instruction_unconditional exRowDone "u1" 9).2.2.2 1 rfl⟩

/-- Counterexample to C6: cancelling a `done` instruction is not a no-op —
the handler overwrites its status with `canceled`. -/
theorem cancel_terminal_not_noop :
    exRowDone.status = "done" ∧
    (cancel_instruction exRowDone 9).status = "canceled" ∧
    cancel_instruction exRowDone 9 ≠ exRowDone := by
  refine ⟨rfl, rfl, fun h => ?_⟩
  have hs := congrArg InstrRow.status h
  simp [cancel_instruction, exRowDone] at hs

/-- Claim C6 as amended: cancel is valid from any state and unconditionally
sets status `canceled`, preserving an already-set `finished_at`; it is
idempotent only on already-canceled instructions and only up to
`updated_at` — a second cancel changes nothing but `updated_at`, while
cancelling a `done` or `failed` instruction overwrites its status. -/
theorem cancel_instruction_amended (row : InstrRow) (now : Int) :
    (cancel_instruction row now).status = "canceled" ∧
    (row.status = "canceled" → (cancel_instruction row now).status = row.status) ∧
    (∀ t, row.finished_at = some t → (cancel_instruction row now).finished_at = some t) ∧
    (row.finished_at = none → (cancel_instruction row now).finished_at = some now) ∧
    (∀ t', cancel_instruction (cancel_instruction row now) t' =
      { cancel_instruction row now with updated_at := t' }) := by
  refine ⟨rfl, fun h => by rw [h]; rfl, fun t h => ?_, fun h => ?_, fun t' => rfl⟩ <;>
    simp [cancel_instruction, h]

/-- Witness for C6's amended claim at a concrete terminal row. -/
theorem cancel_instruction_amended_witness :
    (cancel_instruction exRowDone 9).finished_at = some 3 :=
  (cancel_instruction_amended exRowDone 9).2.2.1 3 rfl

/-- Counterexample to C5: with a present but empty jobs list the code
returns `partial` while the claimed classification returns `ok` (all zero
statuses are vacuously in `{done, planned}`). -/
theorem derive_run_status_empty_jobs_gap :
    derive_run_status exDoc5 = "partial" ∧ derive_run_status_claim exDoc5 = "ok" := by
  constructor <;> rfl

/-- Counterexample to C4: a document with a non-empty `cost_events[]` list
and a generation object with a cost yields two events — the generation event
is not suppressed by the earlier non-empty source as the claim states. -/
theorem extract_cost_event_rows_gen_not_gated :
    (extract_cost_event_rows exDoc4).length = 2 ∧
    (extract_cost_event_rows_claim exDoc4).length = 1 := by
  constructor <;> rfl

/-- Claim C4 as amended: extraction does not stop at the first non-empty
source — the explicit `cost_events[]` list and the `generation` object
contribute events independently of each other (the generation event exists
exactly when the generation dict's derived `cost_usd`, possibly converted
from `amount_cents`, is non-null, regardless of `cost_events[]`), and the
top-level `cost_usd` / `amount_cents` fields contribute only when both
earlier sources yield nothing. -/
theorem extract_cost_event_rows_amended (d : Dict) :
    (costEventsFromList d ≠ [] ∨ costEventsFromGeneration d ≠ [] →
      extract_cost_event_rows d = costEventsFromList d ++ costEventsFromGeneration d) ∧
    (costEventsFromList d = [] → costEventsFromGeneration d = [] →
      extract_cost_event_rows d = costEventsFromTopLevel d) := by
  constructor
  · intro h
    have hne : ¬ (costEventsFromList d ++ costEventsFromGeneration d).isEmpty := by
      rcases h with h | h <;> simp_all [List.isEmpty_iff]
    simp [extract_cost_event_rows, hne]
  · intro h1 h2
    simp [extract_cost_event_rows, h1, h2]

/-- Witness for C4's amended claim at the two-source document. -/
theorem extract_cost_event_rows_amended_witness :
    extract_cost_event_rows exDoc4 =
      costEventsFromList exDoc4 ++ costEventsFromGeneration exDoc4 :=
  (extract_cost_event_rows_amended exDoc4).1
    (Or.inl (List.length_pos.mp (by decide)))

/-- Claim C5 as amended: the derived run status is `unknown` when the jobs
field is present but not a list; otherwise `failed` when any job's trimmed,
lowercased status begins with `failed`; `ok` when there is at least one job
status and every one is in `{done, planned}`; and `partial` otherwise — in
particular a run-log with an empty jobs list derives `partial`, not `ok`. -/
theorem derive_run_status_amended (d : Dict) :
    (jobsFieldIsList d = false → derive_run_status d = "unknown") ∧
    (jobsFieldIsList d = true →
      ((derive_run_status d = "failed" ↔
        ∃ s ∈ jobStatuses d, pyStartswith s "failed" = true) ∧
       (derive_run_status d = "ok" ↔
        jobStatuses d ≠ [] ∧ ∀ s ∈ jobStatuses d, s = "done" ∨ s = "planned") ∧
       (derive_run_status d = "partial" ↔
        (∀ s ∈ jobStatuses d, ¬ pyStartswith s "failed" = true) ∧
        ¬ (jobStatuses d ≠ [] ∧ ∀ s ∈ jobStatuses d, s = "done" ∨ s = "planned")))) := by
  by_cases hL : jobsFieldIsList d = true
  · obtain ⟨items, hj⟩ : ∃ items, pyGetD d "jobs" (J.arr []) = J.arr items := by
      unfold jobsFieldIsList at hL
      revert hL
      cases pyGetD d "jobs" (J.arr []) <;> simp
    have hS : jobStatuses d = items.filterMap (fun j =>
        match j with
        | J.obj jd => some (pyLower (pyStrip (pyStr (pyGetD jd "status" (J.s "")))))
        | _ => none) := by
      simp [jobStatuses, jobsOf, hj]
    refine ⟨fun hF => absurd hL (by simp [hF]), fun _ => ?_⟩
    simp only [derive_run_status, hj, hS]
    set S := items.filterMap (fun j =>
      match j with
      | J.obj jd => some (pyLower (pyStrip (pyStr (pyGetD jd "status" (J.s "")))))
      | _ => none) with hSdef
    cases hf : S.any (fun s => pyStartswith s "failed") with
    | true =>
      obtain ⟨s0, hs0, hsf⟩ := List.any_eq_true.mp hf
      simp only [hf, if_true]
      refine ⟨iff_of_true (by trivial) ⟨s0, hs0, hsf⟩, iff_of_false (by decide) ?_,
        iff_of_false (by decide) ?_⟩
      · rintro ⟨_, hall⟩
        rcases hall s0 hs0 with h | h <;> rw [h] at hsf <;> exact absurd hsf (by decide)
      · rintro ⟨hnofail, _⟩
        exact hnofail s0 hs0 hsf
    | false =>
      have hnofail : ∀ s ∈ S, ¬ pyStartswith s "failed" = true := by
        intro s hs
        exact List.any_eq_false.mp hf s hs
      simp only [hf, Bool.false_eq_true, if_false]
      by_cases hne : S.isEmpty = true
      · have hSnil : S = [] := List.isEmpty_iff.mp hne
        rw [hSnil]
        simp
      · by_cases hall : S.all (fun s => decide (s = "done" ∨ s = "planned")) = true
        · have hcond : ¬ S.isEmpty = true ∧
              S.all (fun s => decide (s = "done" ∨ s = "planned")) = true := ⟨hne, hall⟩
          rw [if_pos hcond]
          have hrhs : S ≠ [] ∧ ∀ s ∈ S, s = "done" ∨ s = "planned" := by
            refine ⟨fun hnil => hne (by rw [hnil]; rfl), fun s hs => ?_⟩
            have := List.all_eq_true.mp hall s hs
            exact of_decide_eq_true this
          refine ⟨iff_of_false (by decide) ?_, iff_of_true rfl hrhs,
            iff_of_false (by decide) ?_⟩
          · rintro ⟨s0, hs0, hsf⟩
            exact hnofail s0 hs0 hsf
          · rintro ⟨_, hno⟩
            exact hno hrhs
        · have hcond : ¬ (¬ S.isEmpty = true ∧
              S.all (fun s => decide (s = "done" ∨ s = "planned")) = true) := by
            rintro ⟨_, h⟩
            exact hall h
          rw [if_neg hcond]
          have hrhsno : ¬ (S ≠ [] ∧ ∀ s ∈ S, s = "done" ∨ s = "planned") := by
            rintro ⟨_, hall'⟩
            refine hall (List.all_eq_true.mpr fun s hs => ?_)
            exact decide_eq_true (hall' s hs)
          refine ⟨iff_of_false (by decide) ?_, iff_of_false (by decide) hrhsno,
            iff_of_true rfl ⟨hnofail, hrhsno⟩⟩
          rintro ⟨s0, hs0, hsf⟩
          exact hnofail s0 hs0 hsf
  · have hL' : jobsFieldIsList d = false := by
      cases hv : jobsFieldIsList d
      · rfl
      · exact absurd hv hL
    have hu : derive_run_status d = "unknown" := by
      unfold jobsFieldIsList at hL'
      unfold derive_run_status
      revert hL'
      cases pyGetD d "jobs" (J.arr []) <;> simp
    exact ⟨fun _ => hu, fun hT => absurd hT hL⟩

/-- Witness for C5's amended claim: the empty-jobs document classifies as
`partial`. -/
theorem derive_run_status_amended_witness :
    derive_run_status exDoc5 = "partial" :=
  (((derive_run_status_amended exDoc5).2 (by decide)).2.2).mpr
    (by constructor <;> simp [jobStatuses, jobsOf, exDoc5, pyGetD, dictFind])

/-- Claim C10: every row `_upsert_asset_link` inserts has a present,
distinct parent and child and an allowed link type (anything else is coerced
to `derived_from`); missing, empty and self links are dropped silently, and
re-inserting an existing `(parent, child, link_type)` triple is a no-op. -/
theorem upsert_asset_link_spec (db : LinksDB) (pid : String)
    (parent child : Option String) (lt : String) (now : Int) :
    (∀ t, linkTypeAllowed (safeLinkType t) = true) ∧
    (parent = none → upsert_asset_link db pid parent child lt now = db) ∧
    (child = none → upsert_asset_link db pid parent child lt now = db) ∧
    (∀ p c, parent = some p → child = some c → (p = "" ∨ c = "" ∨ p = c) →
      upsert_asset_link db pid parent child lt now = db) ∧
    ((∀ l ∈ db.links, LinkOK l) →
      ∀ l ∈ (upsert_asset_link db pid parent child lt now).links, LinkOK l) ∧
    (∀ p c, parent = some p → child = some c →
      (∃ l ∈ db.links, l.parent_asset_id = p ∧ l.child_asset_id = c ∧
        l.link_type = safeLinkType lt) →
      upsert_asset_link db pid parent child lt now = db) ∧
    (∀ p c, parent = some p → child = some c → ¬ (p = "" ∨ c = "" ∨ p = c) →
      (¬ ∃ l ∈ db.links, l.parent_asset_id = p ∧ l.child_asset_id = c ∧
        l.link_type = safeLinkType lt) →
      (upsert_asset_link db pid parent child lt now).links =
        db.links ++ [AssetLinkRow.mk db.ctr pid p c (safeLinkType lt) now]) := by
  have hallow : ∀ t, linkTypeAllowed (safeLinkType t) = true := by
    intro t
    simp only [safeLinkType]
    split
    · assumption
    · decide
  have hnone1 : parent = none → upsert_asset_link db pid parent child lt now = db := by
    intro h
    subst h
    cases child <;> rfl
  have hnone2 : child = none → upsert_asset_link db pid parent child lt now = db := by
    intro h
    subst h
    cases parent <;> rfl
  refine ⟨hallow, hnone1, hnone2, ?_, ?_, ?_, ?_⟩
  · intro p c hp hc hdrop
    subst hp hc
    simp only [upsert_asset_link, if_pos hdrop]
  · intro hOK l hl
    cases parent with
    | none => rw [hnone1 rfl] at hl; exact hOK l hl
    | some p =>
      cases child with
      | none => rw [hnone2 rfl] at hl; exact hOK l hl
      | some c =>
        simp only [upsert_asset_link] at hl
        by_cases hdrop : p = "" ∨ c = "" ∨ p = c
        · rw [if_pos hdrop] at hl
          exact hOK l hl
        · rw [if_neg hdrop] at hl
          by_cases hgate : db.links.any (fun l =>
              decide (l.parent_asset_id = p ∧ l.child_asset_id = c ∧
                l.link_type = safeLinkType lt)) = true
          · rw [if_pos hgate] at hl
            exact hOK l hl
          · rw [if_neg hgate] at hl
            simp only [List.mem_append, List.mem_singleton] at hl
            rcases hl with hl | hl
            · exact hOK l hl
            · push_neg at hdrop
              subst hl
              exact ⟨hdrop.1, hdrop.2.1, hdrop.2.2, hallow lt⟩
  · intro p c hp hc hdup
    subst hp hc
    by_cases hdrop : p = "" ∨ c = "" ∨ p = c
    · simp only [upsert_asset_link, if_pos hdrop]
    · have hgate : db.links.any (fun l =>
          decide (l.parent_asset_id = p ∧ l.child_asset_id = c ∧
            l.link_type = safeLinkType lt)) = true := by
        obtain ⟨l, hl, hprops⟩ := hdup
        exact List.any_eq_true.mpr ⟨l, hl, decide_eq_true hprops⟩
      simp only [upsert_asset_link, if_neg hdrop, if_pos hgate]
  · intro p c hp hc hdrop hnodup
    subst hp hc
    have hgate : db.links.any (fun l =>
        decide (l.parent_asset_id = p ∧ l.child_asset_id = c ∧
          l.link_type = safeLinkType lt)) = false := by
      cases hv : db.links.any (fun l =>
          decide (l.parent_asset_id = p ∧ l.child_asset_id = c ∧
            l.link_type = safeLinkType lt))
      · rfl
      · obtain ⟨l, hl, hprops⟩ := List.any_eq_true.mp hv
        exact absurd ⟨l, hl, of_decide_eq_true hprops⟩ hnodup
    simp only [upsert_asset_link, if_neg hdrop, hgate, Bool.false_eq_true, if_false]

/-- Witness for C10 on an empty table: the unrecognised link type is stored
as the coerced value. -/
theorem upsert_asset_link_spec_witness :
    (upsert_asset_link ⟨[], 0⟩ "p" (some "a") (some "b") "WEIRD Type" 7).links =
      [] ++ [AssetLinkRow.mk 0 "p" "a" "b" (safeLinkType "WEIRD Type") 7] :=
  (upsert_asset_link_spec ⟨[], 0⟩ "p" (some "a") (some "b") "WEIRD Type" 7).2.2.2.2.2.2
    "a" "b" rfl rfl (by decide) (by simp)

/-- The latest-row pick of `upsert_asset` returns an element of its input. -/
theorem pickLatestAsset_mem {l : List AssetRow} {a : AssetRow}
    (h : pickLatestAsset l = some a) : a ∈ l := by
  have go : ∀ (l' : List AssetRow) (acc : Option AssetRow) (a' : AssetRow),
      l'.foldl (fun acc x =>
        match acc with
        | none => some x
        | some b => if b.created_at ≤ x.created_at then some x else some b) acc = some a' →
      acc = some a' ∨ a' ∈ l' := by
    intro l'
    induction l' with
    | nil => intro acc a' h'; exact Or.inl h'
    | cons x t ih =>
      intro acc a' h'
      simp only [List.foldl_cons] at h'
      rcases ih _ a' h' with hacc | hmem
      · cases acc with
        | none =>
          simp only at hacc
          cases hacc
          exact Or.inr (List.mem_cons_self x t)
        | some b =>
          simp only at hacc
          by_cases hle : b.created_at ≤ x.created_at
          · rw [if_pos hle] at hacc
            cases hacc
            exact Or.inr (List.mem_cons_self x t)
          · rw [if_neg hle] at hacc
            exact Or.inl hacc
      · exact Or.inr (List.mem_cons_of_mem x hmem)
  rcases go l none a h with h' | h'
  · cases h'
  · exact h'

/-- Counterexample to C7: an existing asset row with established `run_id`
and `sha256` loses both when the same path is upserted again with empty
link fields — the update overwrites instead of filling only unset fields. -/
theorem upsert_asset_clobbers :
    exAsset7.run_id = some 7 ∧ exAsset7.sha256 = some "h" ∧
    ((upsert_asset exDb7 "p" none none none "upload" "img.png"
        (fun _ => none) false none 5).2.assets.map
      (fun a => (a.run_id, a.sha256))) = [(none, none)] := by
  refine ⟨rfl, rfl, ?_⟩
  rfl

/-- A non-empty asset list yields a latest pick. -/
theorem pickLatestAsset_ne_none {l : List AssetRow} (h : l ≠ []) :
    ∃ a, pickLatestAsset l = some a := by
  have go : ∀ (t : List AssetRow) (b : AssetRow), ∃ a,
      t.foldl (fun acc x =>
        match acc with
        | none => some x
        | some b => if b.created_at ≤ x.created_at then some x else some b)
        (some b) = some a := by
    intro t
    induction t with
    | nil => exact fun b => ⟨b, rfl⟩
    | cons x t ih =>
      intro b
      simp only [List.foldl_cons]
      by_cases hle : b.created_at ≤ x.created_at
      · rw [if_pos hle]
        exact ih x
      · rw [if_neg hle]
        exact ih b
  cases l with
  | nil => exact absurd rfl h
  | cons x t => exact go t x

/-- The update map of `upsert_asset` preserves every row id. -/
theorem upsert_update_id (ex : AssetRow) (rid jid cid : Option Nat)
    (kind clean : String) (fh : Option String) (payload : Dict) (ts : Int)
    (a : AssetRow) :
    (if a.id = ex.id then
      { a with
        run_id := rid, job_id := jid, candidate_id := cid, asset_kind := kind,
        kind := kind, rel_path := clean, storage_uri := clean, sha256 := fh,
        meta_json := payload, metadata_json := payload, created_at := ts }
     else a).id = a.id := by
  split <;> rfl

/-- `upsert_asset` touches only the asset table and the id supply. -/
theorem upsert_asset_frame (db : DB) (pid : String) (rid jid cid : Option Nat)
    (kind rel : String) (fs : String → Option String) (ch : Bool)
    (em : Option Dict) (ts : Int) :
    (upsert_asset db pid rid jid cid kind rel fs ch em ts).2.runs = db.runs ∧
    (upsert_asset db pid rid jid cid kind rel fs ch em ts).2.run_jobs = db.run_jobs ∧
    (upsert_asset db pid rid jid cid kind rel fs ch em ts).2.run_job_candidates =
      db.run_job_candidates ∧
    (upsert_asset db pid rid jid cid kind rel fs ch em ts).2.run_candidates =
      db.run_candidates ∧
    (upsert_asset db pid rid jid cid kind rel fs ch em ts).2.quality_reports =
      db.quality_reports ∧
    (upsert_asset db pid rid jid cid kind rel fs ch em ts).2.cost_events =
      db.cost_events ∧
    (upsert_asset db pid rid jid cid kind rel fs ch em ts).2.audit_events =
      db.audit_events ∧
    db.ctr ≤ (upsert_asset db pid rid jid cid kind rel fs ch em ts).2.ctr := by
  simp only [upsert_asset]
  by_cases hc : normalize_rel_path rel = ""
  · simp [hc]
  · simp only [if_neg hc]
    cases hp : pickLatestAsset
        (db.assets.filter (assetMatches pid (normalize_rel_path rel))) with
    | none => simp [hp, Nat.le_succ]
    | some ex => simp [hp]

/-- `upsert_asset` preserves the asset-table sanity invariant. -/
theorem upsert_asset_inv (db : DB) (pid : String) (rid jid cid : Option Nat)
    (kind rel : String) (fs : String → Option String) (ch : Bool)
    (em : Option Dict) (ts : Int) (hI : AssetsInv db) :
    AssetsInv (upsert_asset db pid rid jid cid kind rel fs ch em ts).2 := by
  simp only [upsert_asset]
  by_cases hc : normalize_rel_path rel = ""
  · simpa [hc] using hI
  · simp only [if_neg hc]
    cases hp : pickLatestAsset
        (db.assets.filter (assetMatches pid (normalize_rel_path rel))) with
    | none =>
      simp only [hp]
      constructor
      · intro a ha
        simp only [List.mem_append, List.mem_singleton] at ha
        rcases ha with ha | ha
        · exact Nat.lt_succ_of_lt (hI.1 a ha)
        · subst ha
          exact Nat.lt_succ_self _
      · rw [List.map_append, List.nodup_append]
        refine ⟨hI.2, by simp, ?_⟩
        intro v hv1 hv2
        simp only [List.map_cons, List.map_nil, List.mem_singleton] at hv2
        obtain ⟨a, ha, hav⟩ := List.mem_map.mp hv1
        subst hav
        exact absurd (hv2 ▸ hI.1 a ha) (lt_irrefl _)
    | some ex =>
      simp only [hp]
      constructor
      · intro a ha
        obtain ⟨x, hx, hxa⟩ := List.mem_map.mp ha
        have : a.id = x.id := by
          rw [← hxa]
          exact upsert_update_id ex rid jid cid kind _ _ _ ts x
        rw [this]
        exact hI.1 x hx
      · have hmap : (db.assets.map (fun a =>
            if a.id = ex.id then
              { a with
                run_id := rid, job_id := jid, candidate_id := cid,
                asset_kind := kind, kind := kind,
                rel_path := normalize_rel_path rel,
                storage_uri := normalize_rel_path rel,
                sha256 := if ch then fs (normalize_rel_path rel) else none,
                meta_json := dictUpdate
                  [("path_exists", J.b (fs (normalize_rel_path rel)).isSome)]
                  (em.getD []),
                metadata_json := dictUpdate
                  [("path_exists", J.b (fs (normalize_rel_path rel)).isSome)]
                  (em.getD []),
                created_at := ts }
            else a)).map (fun a => a.id) = db.assets.map (fun a => a.id) := by
          rw [List.map_map]
          congr 1
          funext x
          simp only [Function.comp_apply]
          exact upsert_update_id ex rid jid cid kind _ _ _ ts x
        rw [hmap]
        exact hI.2

/-- `upsert_asset` never removes a normalized asset row: any `SW` witness
survives (possibly as the updated row). -/
theorem upsert_asset_sw_mono (db : DB) (pid : String) (rid jid cid : Option Nat)
    (kind rel : String) (fs : String → Option String) (ch : Bool)
    (em : Option Dict) (ts : Int) (hI : AssetsInv db) (pid' q : String)
    (hw : SW pid' q db.assets) :
    SW pid' q (upsert_asset db pid rid jid cid kind rel fs ch em ts).2.assets := by
  obtain ⟨w, hwmem, hw1, hw2, hw3⟩ := hw
  simp only [upsert_asset]
  by_cases hc : normalize_rel_path rel = ""
  · simp only [hc, if_pos rfl]
    exact ⟨w, hwmem, hw1, hw2, hw3⟩
  · simp only [if_neg hc]
    cases hp : pickLatestAsset
        (db.assets.filter (assetMatches pid (normalize_rel_path rel))) with
    | none =>
      simp only [hp]
      exact ⟨w, List.mem_append_left _ hwmem, hw1, hw2, hw3⟩
    | some ex =>
      simp only [hp]
      have hexmem' := pickLatestAsset_mem hp
      have hexmem : ex ∈ db.assets := List.mem_of_mem_filter hexmem'
      have hexmatch : assetMatches pid (normalize_rel_path rel) ex = true :=
        (List.mem_filter.mp hexmem').2
      by_cases hid : w.id = ex.id
      · have hwex : w = ex := List.inj_on_of_nodup_map hI.2 hwmem hexmem hid
        subst hwex
        have hq : q = normalize_rel_path rel := by
          simp only [assetMatches, Bool.and_eq_true, decide_eq_true_eq,
            Bool.or_eq_true] at hexmatch
          rcases hexmatch.2 with h | h
          · rw [← hw2, h]
          · rw [← hw3, h]
        refine ⟨_, List.mem_map_of_mem _ hexmem, ?_⟩
        rw [if_pos rfl]
        exact ⟨hw1, by rw [hq], by rw [hq]⟩
      · refine ⟨_, List.mem_map_of_mem _ hwmem, ?_⟩
        rw [if_neg hid]
        exact ⟨hw1, hw2, hw3⟩

/-- After `upsert_asset`, a normalized row for the upserted path exists
(unless the path normalizes to empty and the call was a no-op). -/
theorem upsert_asset_sw_self (db : DB) (pid : String) (rid jid cid : Option Nat)
    (kind rel : String) (fs : String → Option String) (ch : Bool)
    (em : Option Dict) (ts : Int) :
    SWArg pid (upsert_asset db pid rid jid cid kind rel fs ch em ts).2.assets rel := by
  by_cases hc : normalize_rel_path rel = ""
  · exact Or.inl hc
  · refine Or.inr ?_
    simp only [upsert_asset, if_neg hc]
    cases hp : pickLatestAsset
        (db.assets.filter (assetMatches pid (normalize_rel_path rel))) with
    | none =>
      simp only [hp]
      exact ⟨_, List.mem_append_right _ (List.mem_singleton_self _), rfl, rfl, rfl⟩
    | some ex =>
      simp only [hp]
      have hexmem' := pickLatestAsset_mem hp
      have hexmem : ex ∈ db.assets := List.mem_of_mem_filter hexmem'
      have hexpid : ex.project_id = pid := by
        have := (List.mem_filter.mp hexmem').2
        simp only [assetMatches, Bool.and_eq_true, decide_eq_true_eq] at this
        exact this.1
      refine ⟨_, List.mem_map_of_mem _ hexmem, ?_⟩
      rw [if_pos rfl]
      exact ⟨hexpid, rfl, rfl⟩

/-- When a normalized row for the path already exists, `upsert_asset` takes
the update branch and the asset table keeps its length. -/
theorem upsert_asset_len (db : DB) (pid : String) (rid jid cid : Option Nat)
    (kind rel : String) (fs : String → Option String) (ch : Bool)
    (em : Option Dict) (ts : Int) (h : SWArg pid db.assets rel) :
    (upsert_asset db pid rid jid cid kind rel fs ch em ts).2.assets.length =
      db.assets.length := by
  by_cases hc : normalize_rel_path rel = ""
  · simp [upsert_asset, hc]
  · rcases h with hc' | hsw
    · exact absurd hc' hc
    · obtain ⟨w, hwmem, hw1, hw2, hw3⟩ := hsw
      have hwf : w ∈ db.assets.filter (assetMatches pid (normalize_rel_path rel)) := by
        refine List.mem_filter.mpr ⟨hwmem, ?_⟩
        simp only [assetMatches, Bool.and_eq_true, decide_eq_true_eq, Bool.or_eq_true]
        exact ⟨hw1, Or.inl hw2⟩
      obtain ⟨ex, hp⟩ := pickLatestAsset_ne_none (List.ne_nil_of_mem hwf)
      simp [upsert_asset, if_neg hc, hp]

/-- Claim C7 as amended: when the upsert matches an existing row by
`(project_id, rel_path OR storage_uri)` it overwrites `run_id`, `job_id`,
`candidate_id`, `sha256` and the metadata with the current call's values —
established values are replaced, not preserved. -/
theorem upsert_asset_overwrites (db : DB) (pid : String)
    (rid jid cid : Option Nat) (kind rel : String)
    (fs : String → Option String) (ch : Bool) (em : Option Dict) (ts : Int)
    (ex : AssetRow)
    (hclean : ¬ normalize_rel_path rel = "")
    (hpick : pickLatestAsset
      (db.assets.filter (assetMatches pid (normalize_rel_path rel))) = some ex) :
    (upsert_asset db pid rid jid cid kind rel fs ch em ts).1 = some ex.id ∧
    ∃ a ∈ (upsert_asset db pid rid jid cid kind rel fs ch em ts).2.assets,
      a.id = ex.id ∧ a.run_id = rid ∧ a.job_id = jid ∧ a.candidate_id = cid ∧
      a.sha256 = (if ch then fs (normalize_rel_path rel) else none) ∧
      a.meta_json = dictUpdate
        [("path_exists", J.b (fs (normalize_rel_path rel)).isSome)] (em.getD []) := by
  have hmem : ex ∈ db.assets :=
    List.mem_of_mem_filter (pickLatestAsset_mem hpick)
  simp only [upsert_asset, if_neg hclean, hpick]
  refine ⟨by trivial, ?_⟩
  refine ⟨_, List.mem_map_of_mem _ hmem, ?_⟩
  rw [if_pos rfl]
  exact ⟨rfl, rfl, rfl, rfl, rfl, rfl⟩

/-- Witness for C7's amended claim at the concrete clobbered row. -/
theorem upsert_asset_overwrites_witness :
    ∃ a ∈ (upsert_asset exDb7 "p" none none none "upload" "img.png"
        (fun _ => none) false none 5).2.assets,
      a.id = exAsset7.id ∧ a.run_id = none ∧ a.job_id = none ∧
      a.candidate_id = none ∧
      a.sha256 = (if false then (fun (_ : String) => (none : Option String))
        (normalize_rel_path "img.png") else none) ∧
      a.meta_json = dictUpdate
        [("path_exists", J.b ((fun (_ : String) => (none : Option String))
          (normalize_rel_path "img.png")).isSome)] ((none : Option Dict).getD []) :=
  (upsert_asset_overwrites exDb7 "p" none none none "upload" "img.png"
    (fun _ => none) false none 5 exAsset7 (by decide) (by rfl)).2

/-- Claim C3: on dispatch failure the worker increments `attempts`; while
the new count is below the effective `max_attempts` it requeues with
`next_attempt_at = now + retry_backoff_seconds × attempts` (linear backoff),
clears the lease, records the error and emits `retry_scheduled`; once the
count reaches `max_attempts` it fails the instruction and emits `error`. -/
theorem settle_dispatch_failure_policy (row : InstrRow)
    (dflt backoff : Int) (err : String) (now : Int) :
    (settle_dispatch_failure row dflt backoff err now).1.attempts =
      some (pyOrInt row.attempts 0 + 1) ∧
    (pyOrInt row.attempts 0 + 1 < pyOrInt row.max_attempts dflt →
      (settle_dispatch_failure row dflt backoff err now).1.status = "queued" ∧
      (settle_dispatch_failure row dflt backoff err now).1.next_attempt_at =
        some (now + backoff * (pyOrInt row.attempts 0 + 1)) ∧
      (settle_dispatch_failure row dflt backoff err now).1.locked_by = none ∧
      (settle_dispatch_failure row dflt backoff err now).1.locked_at = none ∧
      (settle_dispatch_failure row dflt backoff err now).1.last_error = some err ∧
      (settle_dispatch_failure row dflt backoff err now).1.finished_at = row.finished_at ∧
      (settle_dispatch_failure row dflt backoff err now).2.event_type = "retry_scheduled") ∧
    (pyOrInt row.max_attempts dflt ≤ pyOrInt row.attempts 0 + 1 →
      (settle_dispatch_failure row dflt backoff err now).1.status = "failed" ∧
      (settle_dispatch_failure row dflt backoff err now).1.next_attempt_at = none ∧
      (settle_dispatch_failure row dflt backoff err now).1.locked_by = none ∧
      (settle_dispatch_failure row dflt backoff err now).1.locked_at = none ∧
      (settle_dispatch_failure row dflt backoff err now).1.last_error = some err ∧
      (settle_dispatch_failure row dflt backoff err now).2.event_type = "error") := by
  refine ⟨rfl, fun h => ?_, fun h => ?_⟩
  · simp [settle_dispatch_failure, h]
  · have h' : ¬ pyOrInt row.attempts 0 + 1 < pyOrInt row.max_attempts dflt :=
      not_lt.mpr h
    simp [settle_dispatch_failure, h']

/-- The order `ORDER BY priority ASC, created_at ASC` never prefers a row
to itself. -/
theorem lexLt_irrefl (a : InstrRow) : lexLt a a = false := by
  simp [lexLt]

/-- Strict transitivity of the reservation order. -/
theorem lexLt_trans {a b c : InstrRow} (h1 : lexLt a b = true)
    (h2 : lexLt b c = true) : lexLt a c = true := by
  simp only [lexLt, decide_eq_true_eq] at *
  rcases h1 with h1 | ⟨h1, h1'⟩ <;> rcases h2 with h2 | ⟨h2, h2'⟩
  · exact Or.inl (lt_trans h1 h2)
  · exact Or.inl (h2 ▸ h1)
  · exact Or.inl (h1 ▸ h2)
  · exact Or.inr ⟨h1.trans h2, lt_trans h1' h2'⟩

/-- Negative transitivity of the reservation order. -/
theorem lexLt_neg_trans {a b c : InstrRow} (h1 : lexLt a b = false)
    (h2 : lexLt b c = false) : lexLt a c = false := by
  simp only [lexLt, decide_eq_false_iff_not, not_or, not_and] at *
  omega

/-- The body of `selectNext`'s fold. -/
def selectStep (now lock_cutoff : Int) (acc : Option InstrRow) (r : InstrRow) :
    Option InstrRow :=
  if eligibleRow now lock_cutoff r then
    match acc with
    | none => some r
    | some a => if lexLt r a then some r else some a
  else acc

/-- `selectNext` is the fold of `selectStep`. -/
theorem selectNext_eq_fold (rows : List InstrRow) (now lock_cutoff : Int) :
    selectNext rows now lock_cutoff = rows.foldl (selectStep now lock_cutoff) none := rfl

/-- What the selection fold guarantees about its result: it came from the
accumulator or is an eligible member, and nothing — neither the accumulator
nor any eligible member — strictly precedes it. -/
theorem selectStep_fold_spec (now lock_cutoff : Int) :
    ∀ (l : List InstrRow) (acc : Option InstrRow) (r0 : InstrRow),
      l.foldl (selectStep now lock_cutoff) acc = some r0 →
      (acc = some r0 ∨ (r0 ∈ l ∧ eligibleRow now lock_cutoff r0 = true)) ∧
      (∀ a, acc = some a → lexLt a r0 = false) ∧
      (∀ r' ∈ l, eligibleRow now lock_cutoff r' = true → lexLt r' r0 = false) := by
  intro l
  induction l with
  | nil =>
    intro acc r0 h
    simp only [List.foldl_nil] at h
    refine ⟨Or.inl h, fun a ha => ?_, by simp⟩
    rw [h] at ha
    cases ha
    exact lexLt_irrefl r0
  | cons x l ih =>
    intro acc r0 h
    simp only [List.foldl_cons] at h
    obtain ⟨ih1, ih2, ih3⟩ := ih (selectStep now lock_cutoff acc x) r0 h
    by_cases hx : eligibleRow now lock_cutoff x = true
    · cases acc with
      | none =>
        have hstep : selectStep now lock_cutoff none x = some x := by
          simp [selectStep, hx]
        rw [hstep] at ih1 ih2
        have hxr0 : lexLt x r0 = false := ih2 x rfl
        constructor
        · rcases ih1 with h1 | h1
          · cases h1
            exact Or.inr ⟨List.mem_cons_self x l, hx⟩
          · exact Or.inr ⟨List.mem_cons_of_mem x h1.1, h1.2⟩
        refine ⟨fun a ha => (by cases ha), fun r' hr' he => ?_⟩
        rcases List.mem_cons.mp hr' with h' | h'
        · exact h' ▸ hxr0
        · exact ih3 r' h' he
      | some a =>
        by_cases hlt : lexLt x a = true
        · have hstep : selectStep now lock_cutoff (some a) x = some x := by
            simp [selectStep, hx, hlt]
          rw [hstep] at ih1 ih2
          have hxr0 : lexLt x r0 = false := ih2 x rfl
          have har0 : lexLt a r0 = false := by
            by_contra hc
            have hc' : lexLt a r0 = true := by
              cases hv : lexLt a r0
              · exact absurd hv hc
              · rfl
            have := lexLt_trans hlt hc'
            rw [this] at hxr0
            cases hxr0
          constructor
          · rcases ih1 with h1 | h1
            · cases h1
              exact Or.inr ⟨List.mem_cons_self x l, hx⟩
            · exact Or.inr ⟨List.mem_cons_of_mem x h1.1, h1.2⟩
          refine ⟨fun a' ha' => (by cases ha'; exact har0), fun r' hr' he => ?_⟩
          rcases List.mem_cons.mp hr' with h' | h'
          · exact h' ▸ hxr0
          · exact ih3 r' h' he
        · have hlt' : lexLt x a = false := by
            cases hv : lexLt x a
            · rfl
            · exact absurd hv hlt
          have hstep : selectStep now lock_cutoff (some a) x = some a := by
            simp [selectStep, hx, hlt']
          rw [hstep] at ih1 ih2
          have har0 : lexLt a r0 = false := ih2 a rfl
          have hxr0 : lexLt x r0 = false := lexLt_neg_trans hlt' har0
          constructor
          · rcases ih1 with h1 | h1
            · cases h1
              exact Or.inl rfl
            · exact Or.inr ⟨List.mem_cons_of_mem x h1.1, h1.2⟩
          refine ⟨fun a' ha' => (by cases ha'; exact har0), fun r' hr' he => ?_⟩
          rcases List.mem_cons.mp hr' with h' | h'
          · exact h' ▸ hxr0
          · exact ih3 r' h' he
    · have hstep : selectStep now lock_cutoff acc x = acc := by
        simp [selectStep, hx]
      rw [hstep] at ih1 ih2
      refine ⟨?_, ih2, fun r' hr' he => ?_⟩
      · rcases ih1 with h1 | h1
        · exact Or.inl h1
        · exact Or.inr ⟨List.mem_cons_of_mem x h1.1, h1.2⟩
      rcases List.mem_cons.mp hr' with h' | h'
      · exact absurd (h' ▸ he) hx
      · exact ih3 r' h' he

/-- The selected row is an eligible member that no eligible member strictly
precedes. -/
theorem selectNext_spec {rows : List InstrRow} {now lock_cutoff : Int}
    {r0 : InstrRow} (h : selectNext rows now lock_cutoff = some r0) :
    r0 ∈ rows ∧ eligibleRow now lock_cutoff r0 = true ∧
    ∀ r' ∈ rows, eligibleRow now lock_cutoff r' = true → lexLt r' r0 = false := by
  rw [selectNext_eq_fold] at h
  obtain ⟨h1, _, h3⟩ := selectStep_fold_spec now lock_cutoff rows none r0 h
  rcases h1 with h1 | h1
  · cases h1
  · exact ⟨h1.1, h1.2, h3⟩

/-- With pairwise distinct ids, `find?` on an id locates a given member. -/
theorem find?_id_of_nodup {rows : List InstrRow} {r0 : InstrRow}
    (hN : (rows.map (fun r => r.id)).Nodup) (hm : r0 ∈ rows) :
    rows.find? (fun x => decide (x.id = r0.id)) = some r0 := by
  induction rows with
  | nil => cases hm
  | cons x l ih =>
    by_cases hx : x.id = r0.id
    · have hx0 : x = r0 :=
        List.inj_on_of_nodup_map hN (List.mem_cons_self x l) hm hx
      simp [List.find?_cons, hx]
      exact hx0
    · have hm' : r0 ∈ l := by
        rcases List.mem_cons.mp hm with h | h
        · exact absurd (h ▸ rfl) hx
        · exact h
      have hN' : (l.map (fun r => r.id)).Nodup := (List.nodup_cons.mp hN).2
      simp [List.find?_cons, hx]
      exact ih hN' hm'

/-- `claimRow` leaves the id unchanged. -/
theorem claimRow_id (r : InstrRow) (w : String) (now : Int) :
    (claimRow r w now).id = r.id := rfl

/-- The conditional-update map of `claimUpdate` leaves every id unchanged. -/
theorem claimUpdate_map_id (rows : List InstrRow) (i : Nat) (w : String) (now : Int) :
    ((claimUpdate rows i w now).2.map (fun r => r.id)) = rows.map (fun r => r.id) := by
  simp only [claimUpdate, List.map_map]
  congr 1
  funext x
  by_cases hx : x.id = i ∧ x.status = "queued"
  · simp only [Function.comp_apply, if_pos hx]
    rfl
  · simp only [Function.comp_apply, if_neg hx]

/-- With distinct ids, the conditional UPDATE on a queued member reports
rowcount 1. -/
theorem claimUpdate_count_one {rows : List InstrRow} {r0 : InstrRow}
    (hN : (rows.map (fun r => r.id)).Nodup) (hm : r0 ∈ rows)
    (hq : r0.status = "queued") (w : String) (now : Int) :
    (claimUpdate rows r0.id w now).1 = 1 := by
  have hle : (claimUpdate rows r0.id w now).1 ≤ 1 := by
    have h1 : (claimUpdate rows r0.id w now).1 ≤
        rows.countP (fun r => decide (r.id = r0.id)) := by
      refine List.countP_mono_left fun a _ ha => ?_
      simp only [decide_eq_true_eq] at ha ⊢
      exact ha.1
    have h2 : rows.countP (fun r => decide (r.id = r0.id)) =
        (rows.map (fun r => r.id)).count r0.id := by
      rw [List.count, List.countP_map]
      rfl
    have h3 : (rows.map (fun r => r.id)).count r0.id ≤ 1 :=
      List.nodup_iff_count_le_one.mp hN r0.id
    omega
  have hpos : 0 < (claimUpdate rows r0.id w now).1 := by
    refine List.countP_pos_iff.mpr ⟨r0, hm, ?_⟩
    simp [hq]
  omega

/-- Characterization of a successful reservation: it claims exactly the
selected row, and the new table is the conditional update of the old. -/
theorem reserve_some_spec {rows : List InstrRow} {w : String}
    {maxLock now : Int} {r : InstrRow} {rows' : List InstrRow}
    (hN : (rows.map (fun x => x.id)).Nodup)
    (h : reserve_next_instruction rows w maxLock now = (some r, rows')) :
    ∃ r0, selectNext rows now (now - maxLock) = some r0 ∧
      r0 ∈ rows ∧ eligibleRow now (now - maxLock) r0 = true ∧
      (∀ r' ∈ rows, eligibleRow now (now - maxLock) r' = true → lexLt r' r0 = false) ∧
      r = claimRow r0 w now ∧
      rows' = (claimUpdate rows r0.id w now).2 := by
  simp only [reserve_next_instruction] at h
  cases hsel : selectNext rows now (now - maxLock) with
  | none =>
    rw [hsel] at h
    simp at h
  | some r0 =>
    rw [hsel] at h
    obtain ⟨hmem, helig, hmin⟩ := selectNext_spec hsel
    have hq : r0.status = "queued" := by
      simp only [eligibleRow, Bool.and_eq_true, decide_eq_true_eq] at helig
      exact helig.1.1
    have hcount : (claimUpdate rows r0.id w now).1 = 1 :=
      claimUpdate_count_one hN hmem hq w now
    have hfind : (claimUpdate rows r0.id w now).2.find?
        (fun x => decide (x.id = r0.id)) = some (claimRow r0 w now) := by
      simp only [claimUpdate, List.find?_map]
      have hcongr : ((fun x => decide (x.id = r0.id)) ∘
          (fun x => if x.id = r0.id ∧ x.status = "queued" then claimRow x w now else x)) =
          (fun x => decide (x.id = r0.id)) := by
        funext x
        by_cases hx : x.id = r0.id ∧ x.status = "queued"
        · simp only [Function.comp_apply, if_pos hx]
          simp [claimRow_id, hx.1]
        · simp only [Function.comp_apply, if_neg hx]
      rw [hcongr, find?_id_of_nodup hN hmem]
      simp [hq]
    simp only [hcount, ne_eq, not_true_eq_false, if_false, hfind] at h
    rw [Prod.mk.injEq] at h
    obtain ⟨h1, h2⟩ := h
    cases h1
    exact ⟨r0, rfl, hmem, helig, hmin, rfl, h2.symm⟩

/-- Claim C1: reservation selects the single best eligible queued row
(priority ascending, then creation time ascending, `next_attempt_at` due,
lease absent or stale), claims it through the UPDATE gated on the row still
being queued, and returns it with status `running`, the worker's lease,
`started_at` filled only if previously null and `next_attempt_at` cleared;
once claimed, every row carrying that id is `running`, a later reservation
can never return the same instruction again, and the gated UPDATE reports
rowcount 0 whenever no row of that id is still queued — so at most one
reservation transitions a given instruction from `queued` to `running`. -/
theorem reserve_next_instruction_exclusive (rows : List InstrRow) (w : String)
    (maxLock now : Int) (hN : (rows.map (fun r => r.id)).Nodup) :
    (∀ r rows', reserve_next_instruction rows w maxLock now = (some r, rows') →
      ∃ r0, r0 ∈ rows ∧ eligibleRow now (now - maxLock) r0 = true ∧
        (∀ r' ∈ rows, eligibleRow now (now - maxLock) r' = true → lexLt r' r0 = false) ∧
        r.id = r0.id ∧ r.status = "running" ∧ r.locked_by = some w ∧
        r.locked_at = some now ∧ r.next_attempt_at = none ∧
        r.started_at = some (r0.started_at.getD now)) ∧
    (∀ r rows', reserve_next_instruction rows w maxLock now = (some r, rows') →
      ∀ rr ∈ rows', rr.id = r.id → rr.status = "running") ∧
    (∀ r rows', reserve_next_instruction rows w maxLock now = (some r, rows') →
      ∀ w2 maxLock2 now2 r2 rows2,
        reserve_next_instruction rows' w2 maxLock2 now2 = (some r2, rows2) →
        r2.id ≠ r.id) ∧
    (∀ i w2 now2, (∀ rr ∈ rows, rr.id = i → rr.status ≠ "queued") →
      (claimUpdate rows i w2 now2).1 = 0) := by
  have hkey : ∀ r rows', reserve_next_instruction rows w maxLock now = (some r, rows') →
      ∀ rr ∈ rows', rr.id = r.id → rr.status = "running" := by
    intro r rows' h rr hrr hid
    obtain ⟨r0, _, hmem, helig, _, hrE, hrowsE⟩ := reserve_some_spec hN h
    have hq : r0.status = "queued" := by
      simp only [eligibleRow, Bool.and_eq_true, decide_eq_true_eq] at helig
      exact helig.1.1
    rw [hrowsE] at hrr
    simp only [claimUpdate] at hrr
    obtain ⟨x, hx, hfx⟩ := List.mem_map.mp hrr
    have hxid : x.id = r0.id := by
      have hpr : rr.id = x.id := by
        rw [← hfx]
        split <;> rfl
      have hrid : r.id = r0.id := by rw [hrE]; rfl
      rw [← hpr, hid, hrid]
    have hx0 : x = r0 := List.inj_on_of_nodup_map hN hx hmem hxid
    subst hx0
    rw [← hfx, if_pos ⟨rfl, hq⟩]
    rfl
  refine ⟨?_, hkey, ?_, ?_⟩
  · intro r rows' h
    obtain ⟨r0, _, hmem, helig, hmin, hrE, _⟩ := reserve_some_spec hN h
    subst hrE
    exact ⟨r0, hmem, helig, hmin, rfl, rfl, rfl, rfl, rfl, rfl⟩
  · intro r rows' h w2 maxLock2 now2 r2 rows2 h2 heq
    obtain ⟨r0, _, hmem, helig, _, hrE, hrowsE⟩ := reserve_some_spec hN h
    have hN' : (rows'.map (fun x => x.id)).Nodup := by
      rw [hrowsE, claimUpdate_map_id]
      exact hN
    obtain ⟨r0', _, hmem', helig', _, hrE', _⟩ := reserve_some_spec hN' h2
    have hq' : r0'.status = "queued" := by
      simp only [eligibleRow, Bool.and_eq_true, decide_eq_true_eq] at helig'
      exact helig'.1.1
    have hid' : r0'.id = r.id := by
      have : r2.id = r0'.id := by rw [hrE']; rfl
      rw [← this, heq]
    have hrun : r0'.status = "running" := hkey r rows' h r0' hmem' hid'
    rw [hq'] at hrun
    exact absurd hrun (by decide)
  · intro i w2 now2 hno
    refine List.countP_eq_zero.mpr fun a ha => ?_
    simp only [decide_eq_true_eq, not_and]
    intro hid
    exact hno a ha hid

/-- Witness for C1 on a one-row queue: the reservation succeeds and every
row of the claimed id is running afterwards. -/
theorem reserve_next_instruction_exclusive_witness :
    reserve_next_instruction [exRowQueued] "w1" 120 50 =
      (some (claimRow exRowQueued "w1" 50), [claimRow exRowQueued "w1" 50]) ∧
    (claimRow exRowQueued "w1" 50).status = "running" :=
  ⟨by decide,
   (reserve_next_instruction_exclusive [exRowQueued] "w1" 120 50 (by decide)).2.1
     (claimRow exRowQueued "w1" 50) [claimRow exRowQueued "w1" 50] (by decide)
     (claimRow exRowQueued "w1" 50) (List.mem_singleton_self _) rfl⟩

/-- Witness for C3: first failure of a fresh instruction with default
budget 3 and backoff 10 at time 100 requeues it for time 110. -/
theorem settle_dispatch_failure_policy_witness :
    (settle_dispatch_failure exRowQueued 3 10 "dispatch_failed" 100).1.status = "queued" ∧
    (settle_dispatch_failure exRowQueued 3 10 "dispatch_failed" 100).1.next_attempt_at =
      some 110 ∧
    (settle_dispatch_failure exRowQueued 3 10 "dispatch_failed" 100).2.event_type =
      "retry_scheduled" :=
  ⟨((settle_dispatch_failure_policy exRowQueued 3 10 "dispatch_failed" 100).2.1 (by decide)).1,
   ((settle_dispatch_failure_policy exRowQueued 3 10 "dispatch_failed" 100).2.1 (by decide)).2.1,
   ((settle_dispatch_failure_policy exRowQueued 3 10 "dispatch_failed" 100).2.1
     (by decide)).2.2.2.2.2.2⟩

/-- Transport of the loop invariant along a state whose re-read tables are
unchanged and whose id supply only grew. -/
theorem StInv.transport {db db' : DB} (h : StInv db) (ha : db'.assets = db.assets)
    (hj : db'.run_jobs = db.run_jobs) (hr : db'.run_candidates = db.run_candidates)
    (hc : db.ctr ≤ db'.ctr) : StInv db' := by
  obtain ⟨⟨b1, b2⟩, bj, br⟩ := h
  refine ⟨⟨?_, ?_⟩, ?_, ?_⟩
  · intro a hmem
    rw [ha] at hmem
    exact lt_of_lt_of_le (b1 a hmem) hc
  · rw [ha]
    exact b2
  · intro j hmem
    rw [hj] at hmem
    exact lt_of_lt_of_le (bj j hmem) hc
  · intro rr hmem
    rw [hr] at hmem
    exact lt_of_lt_of_le (br rr hmem) hc

/-- `insert_quality_report` only appends one report row, tied to the given
run, and bumps the id supply. -/
theorem insert_quality_report_shape (db : DB) (pid : String)
    (rid jid cid : Option Nat) (rt : String) (summ : Dict) (ts : Int) :
    (insert_quality_report db pid rid jid cid rt summ ts).runs = db.runs ∧
    (insert_quality_report db pid rid jid cid rt summ ts).run_jobs = db.run_jobs ∧
    (insert_quality_report db pid rid jid cid rt summ ts).run_job_candidates =
      db.run_job_candidates ∧
    (insert_quality_report db pid rid jid cid rt summ ts).run_candidates =
      db.run_candidates ∧
    (insert_quality_report db pid rid jid cid rt summ ts).assets = db.assets ∧
    (insert_quality_report db pid rid jid cid rt summ ts).cost_events =
      db.cost_events ∧
    (insert_quality_report db pid rid jid cid rt summ ts).audit_events =
      db.audit_events ∧
    (insert_quality_report db pid rid jid cid rt summ ts).ctr = db.ctr + 1 ∧
    ∃ q, (insert_quality_report db pid rid jid cid rt summ ts).quality_reports =
      db.quality_reports ++ [q] ∧ q.run_id = rid :=
  ⟨rfl, rfl, rfl, rfl, rfl, rfl, rfl, rfl, ⟨_, rfl, rfl⟩⟩

/-- `insert_cost_event` only appends one cost row, tied to the given run,
and bumps the id supply. -/
theorem insert_cost_event_shape (db : DB) (pid : String) (rid : Option Nat)
    (pc oc un cu cur meta : J) (ts : Int) :
    (insert_cost_event db pid rid pc oc un cu cur meta ts).runs = db.runs ∧
    (insert_cost_event db pid rid pc oc un cu cur meta ts).run_jobs = db.run_jobs ∧
    (insert_cost_event db pid rid pc oc un cu cur meta ts).run_job_candidates =
      db.run_job_candidates ∧
    (insert_cost_event db pid rid pc oc un cu cur meta ts).run_candidates =
      db.run_candidates ∧
    (insert_cost_event db pid rid pc oc un cu cur meta ts).assets = db.assets ∧
    (insert_cost_event db pid rid pc oc un cu cur meta ts).quality_reports =
      db.quality_reports ∧
    (insert_cost_event db pid rid pc oc un cu cur meta ts).audit_events =
      db.audit_events ∧
    (insert_cost_event db pid rid pc oc un cu cur meta ts).ctr = db.ctr + 1 ∧
    ∃ e, (insert_cost_event db pid rid pc oc un cu cur meta ts).cost_events =
      db.cost_events ++ [e] ∧ e.run_id = rid :=
  ⟨rfl, rfl, rfl, rfl, rfl, rfl, rfl, rfl, ⟨_, rfl, rfl⟩⟩

/-- `emit_audit_event` only appends one audit row and bumps the id supply. -/
theorem emit_audit_event_shape (db : DB) (pj au : Option String) (ec : String)
    (pl : Dict) (tt ti : Option String) (ts : Int) :
    (emit_audit_event db pj au ec pl tt ti ts).runs = db.runs ∧
    (emit_audit_event db pj au ec pl tt ti ts).run_jobs = db.run_jobs ∧
    (emit_audit_event db pj au ec pl tt ti ts).run_job_candidates =
      db.run_job_candidates ∧
    (emit_audit_event db pj au ec pl tt ti ts).run_candidates = db.run_candidates ∧
    (emit_audit_event db pj au ec pl tt ti ts).assets = db.assets ∧
    (emit_audit_event db pj au ec pl tt ti ts).quality_reports =
      db.quality_reports ∧
    (emit_audit_event db pj au ec pl tt ti ts).cost_events = db.cost_events ∧
    (emit_audit_event db pj au ec pl tt ti ts).ctr = db.ctr + 1 ∧
    ∃ a, (emit_audit_event db pj au ec pl tt ti ts).audit_events =
      db.audit_events ++ [a] :=
  ⟨rfl, rfl, rfl, rfl, rfl, rfl, rfl, rfl, ⟨_, rfl⟩⟩

/-- The identity ingest step. -/
theorem ingestStep_refl (pid : String) (runId : Nat) (st : IngestSt) :
    IngestStep pid runId 0 0 0 0 0 [] st st := by
  refine ⟨fun h => h, le_refl _, rfl, rfl, rfl,
    fun _ => ⟨[], by simp, rfl, by simp⟩,
    fun _ => ⟨[], by simp, rfl, by simp⟩,
    fun _ => ⟨[], by simp, rfl, by simp⟩,
    fun _ => ⟨[], by simp, rfl, by simp⟩,
    fun _ _ _ h => h,
    fun _ p hp => absurd hp (List.not_mem_nil p),
    fun _ _ => rfl, rfl, rfl, rfl, rfl, rfl⟩

/-- Ingest steps compose: counts add, and upsert-argument lists append. -/
theorem ingestStep_comp {pid : String} {runId : Nat}
    {n1 c1 r1 a1 q1 : Nat} {args1 : List String}
    {n2 c2 r2 a2 q2 : Nat} {args2 : List String}
    {st m r : IngestSt}
    (h1 : IngestStep pid runId n1 c1 r1 a1 q1 args1 st m)
    (h2 : IngestStep pid runId n2 c2 r2 a2 q2 args2 m r) :
    IngestStep pid runId (n1 + n2) (c1 + c2) (r1 + r2) (a1 + a2) (q1 + q2)
      (args1 ++ args2) st r := by
  obtain ⟨i1, t1, ru1, au1, ce1, dj1, dc1, dr1, dq1, mo1, es1, le1, x1, y1, z1, w1, v1⟩ := h1
  obtain ⟨i2, t2, ru2, au2, ce2, dj2, dc2, dr2, dq2, mo2, es2, le2, x2, y2, z2, w2, v2⟩ := h2
  refine ⟨fun h => i2 (i1 h), le_trans t1 t2, ru2.trans ru1, au2.trans au1,
    ce2.trans ce1, ?_, ?_, ?_, ?_, ?_, ?_, ?_,
    by omega, by omega, by omega, by omega, by omega⟩
  · intro h
    obtain ⟨d1, e1, l1, p1⟩ := dj1 h
    obtain ⟨d2, e2, l2, p2⟩ := dj2 (i1 h)
    refine ⟨d1 ++ d2, by rw [e2, e1, List.append_assoc],
      by rw [List.length_append, l1, l2], ?_⟩
    intro x hx
    rcases List.mem_append.mp hx with hx | hx
    · exact p1 x hx
    · obtain ⟨hr', hi⟩ := p2 x hx
      exact ⟨hr', le_trans t1 hi⟩
  · intro h
    obtain ⟨d1, e1, l1, p1⟩ := dc1 h
    obtain ⟨d2, e2, l2, p2⟩ := dc2 (i1 h)
    obtain ⟨dJ2, eJ2, _, _⟩ := dj2 (i1 h)
    refine ⟨d1 ++ d2, by rw [e2, e1, List.append_assoc],
      by rw [List.length_append, l1, l2], ?_⟩
    intro x hx
    rcases List.mem_append.mp hx with hx | hx
    · obtain ⟨j, hj, hjp⟩ := p1 x hx
      exact ⟨j, by rw [eJ2]; exact List.mem_append_left _ hj, hjp⟩
    · exact p2 x hx
  · intro h
    obtain ⟨d1, e1, l1, p1⟩ := dr1 h
    obtain ⟨d2, e2, l2, p2⟩ := dr2 (i1 h)
    obtain ⟨dJ2, eJ2, _, _⟩ := dj2 (i1 h)
    refine ⟨d1 ++ d2, by rw [e2, e1, List.append_assoc],
      by rw [List.length_append, l1, l2], ?_⟩
    intro x hx
    rcases List.mem_append.mp hx with hx | hx
    · obtain ⟨j, hj, hjp⟩ := p1 x hx
      exact ⟨j, by rw [eJ2]; exact List.mem_append_left _ hj, hjp⟩
    · exact p2 x hx
  · intro h
    obtain ⟨d1, e1, l1, p1⟩ := dq1 h
    obtain ⟨d2, e2, l2, p2⟩ := dq2 (i1 h)
    refine ⟨d1 ++ d2, by rw [e2, e1, List.append_assoc],
      by rw [List.length_append, l1, l2], ?_⟩
    intro x hx
    rcases List.mem_append.mp hx with hx | hx
    · exact p1 x hx
    · exact p2 x hx
  · intro h pid' q hw
    exact mo2 (i1 h) pid' q (mo1 h pid' q hw)
  · intro h p hp
    rcases List.mem_append.mp hp with hp | hp
    · rcases es1 h p hp with hnp | hsw
      · exact Or.inl hnp
      · exact Or.inr (mo2 (i1 h) pid _ hsw)
    · exact es2 (i1 h) p hp
  · intro h hall
    have hall1 : SWAll pid args1 st.db.assets :=
      fun p hp => hall p (List.mem_append_left _ hp)
    have hall2m : SWAll pid args2 m.db.assets := by
      intro p hp
      rcases hall p (List.mem_append_right _ hp) with hnp | hsw
      · exact Or.inl hnp
      · exact Or.inr (mo1 h pid _ hsw)
    rw [le2 (i1 h) hall2m, le1 h hall1]

/-- Renaming of the counts and argument list of an ingest step. -/
theorem ingestStep_congr {pid : String} {runId : Nat}
    {n c r a q n' c' r' a' q' : Nat} {args args' : List String}
    {st res : IngestSt}
    (h : IngestStep pid runId n c r a q args st res)
    (hn : n = n') (hc : c = c') (hr : r = r') (ha : a = a') (hq : q = q')
    (hargs : args = args') :
    IngestStep pid runId n' c' r' a' q' args' st res := by
  subst hn hc hr ha hq hargs
  exact h

/-- A job reference survives any step that only appends job rows. -/
theorem jobRef_append {runId : Nat} {db db' : DB} {v : Nat} {dj : List JobRow}
    (h : JobRef runId db v) (hj : db'.run_jobs = db.run_jobs ++ dj) :
    JobRef runId db' v := by
  obtain ⟨j, hjm, hjp⟩ := h
  exact ⟨j, by rw [hj]; exact List.mem_append_left _ hjm, hjp⟩

/-- One asset upsert together with its counter bump is an ingest step with
one upsert argument. -/
theorem upsert_asset_step (pid : String) (runId : Nat) (rid jid cid : Option Nat)
    (kind p : String) (fs : String → Option String) (ch : Bool)
    (em : Option Dict) (ts : Int) (st : IngestSt) :
    IngestStep pid runId 0 0 0 1 0 [p] st
      { st with
        db := (upsert_asset st.db pid rid jid cid kind p fs ch em ts).2
        inserted_assets := st.inserted_assets + 1 } := by
  obtain ⟨f1, f2, f3, f4, f5, f6, f7, f8⟩ :=
    upsert_asset_frame st.db pid rid jid cid kind p fs ch em ts
  refine ⟨?_, f8, f1, f7, f6, ?_, ?_, ?_, ?_, ?_, ?_, ?_, rfl, rfl, rfl, rfl, rfl⟩
  · rintro ⟨hA, hJ, hR⟩
    refine ⟨upsert_asset_inv st.db pid rid jid cid kind p fs ch em ts hA, ?_, ?_⟩
    · intro j hj
      rw [f2] at hj
      exact lt_of_lt_of_le (hJ j hj) f8
    · intro rr hr
      rw [f4] at hr
      exact lt_of_lt_of_le (hR rr hr) f8
  · intro _
    exact ⟨[], by rw [List.append_nil]; exact f2, rfl, by simp⟩
  · intro _
    exact ⟨[], by rw [List.append_nil]; exact f3, rfl, by simp⟩
  · intro _
    exact ⟨[], by rw [List.append_nil]; exact f4, rfl, by simp⟩
  · intro _
    exact ⟨[], by rw [List.append_nil]; exact f5, rfl, by simp⟩
  · intro h pid' q hw
    exact upsert_asset_sw_mono st.db pid rid jid cid kind p fs ch em ts h.1 pid' q hw
  · intro _ q hq
    have hqp : q = p := List.mem_singleton.mp hq
    subst hqp
    exact upsert_asset_sw_self st.db pid rid jid cid kind q fs ch em ts
  · intro _ hall
    exact upsert_asset_len st.db pid rid jid cid kind p fs ch em ts
      (hall p (List.mem_singleton_self p))

/-- The candidate-row insertion stage is an ingest step adding one legacy
candidate row. -/
theorem candInsert_step (pid : String) (runId jobId : Nat) (ts : Int)
    (c : Dict) (v : CandVals) (st : IngestSt)
    (hjob : JobRef runId st.db jobId) :
    IngestStep pid runId 0 1 0 0 0 [] st (candInsert jobId ts c v st.db.ctr st) := by
  refine ⟨?_, Nat.le_succ _, rfl, rfl, rfl, ?_, ?_, ?_, ?_,
    fun _ _ _ h => h, fun _ p hp => absurd hp (List.not_mem_nil p),
    fun _ _ => rfl, rfl, rfl, rfl, rfl, rfl⟩
  · rintro ⟨⟨b1, b2⟩, bj, br⟩
    exact ⟨⟨fun a ha => Nat.lt_succ_of_lt (b1 a ha), b2⟩,
      fun j hj => Nat.lt_succ_of_lt (bj j hj),
      fun rr hr => Nat.lt_succ_of_lt (br rr hr)⟩
  · intro _
    exact ⟨[], (List.append_nil _).symm, rfl, by simp⟩
  · intro _
    refine ⟨_, rfl, rfl, ?_⟩
    intro x hx
    rw [List.mem_singleton] at hx
    subst hx
    obtain ⟨j, hjm, hjp⟩ := hjob
    exact ⟨j, hjm, hjp⟩
  · intro _
    exact ⟨[], (List.append_nil _).symm, rfl, by simp⟩
  · intro _
    exact ⟨[], (List.append_nil _).symm, rfl, by simp⟩

/-- The asset stage of the candidate loop is an ingest step performing the
candidate's asset upserts. -/
theorem candAssets_step (pid : String) (runId jobId cid : Nat) (v : CandVals)
    (fs : String → Option String) (ch : Bool) (ts : Int) (st : IngestSt) :
    IngestStep pid runId 0 0 0 (candValsAssetCount v) 0 (candValsArgs v) st
      (candAssets pid runId jobId cid v fs ch ts st).2 := by
  cases ho : v.output_path with
  | none =>
    cases hf : v.final_output_path with
    | none =>
      have hres : (candAssets pid runId jobId cid v fs ch ts st).2 = st := by
        simp [candAssets, ho, hf]
      have hcount : candValsAssetCount v = 0 := by
        simp [candValsAssetCount, ho, hf]
      have hargs : candValsArgs v = [] := by
        simp [candValsArgs, ho, hf]
      rw [hres, hcount, hargs]
      exact ingestStep_refl pid runId st
    | some q =>
      have hres : (candAssets pid runId jobId cid v fs ch ts st).2 =
          { st with
            db := (upsert_asset st.db pid (some runId) (some jobId) (some cid)
              "candidate_final_output" q fs ch none ts).2
            inserted_assets := st.inserted_assets + 1 } := by
        simp [candAssets, ho, hf]
      have hcount : candValsAssetCount v = 1 := by
        simp [candValsAssetCount, ho, hf]
      have hargs : candValsArgs v = [q] := by
        simp [candValsArgs, ho, hf]
      rw [hres, hcount, hargs]
      exact upsert_asset_step pid runId (some runId) (some jobId) (some cid)
        "candidate_final_output" q fs ch none ts st
  | some p =>
    cases hf : v.final_output_path with
    | none =>
      have hres : (candAssets pid runId jobId cid v fs ch ts st).2 =
          { st with
            db := (upsert_asset st.db pid (some runId) (some jobId) (some cid)
              "candidate_output" p fs ch none ts).2
            inserted_assets := st.inserted_assets + 1 } := by
        simp [candAssets, ho, hf]
      have hcount : candValsAssetCount v = 1 := by
        simp [candValsAssetCount, ho, hf]
      have hargs : candValsArgs v = [p] := by
        simp [candValsArgs, ho, hf]
      rw [hres, hcount, hargs]
      exact upsert_asset_step pid runId (some runId) (some jobId) (some cid)
        "candidate_output" p fs ch none ts st
    | some q =>
      by_cases hpq : p = q
      · subst hpq
        have hres : (candAssets pid runId jobId cid v fs ch ts st).2 =
            { st with
              db := (upsert_asset st.db pid (some runId) (some jobId) (some cid)
                "candidate_output" p fs ch none ts).2
              inserted_assets := st.inserted_assets + 1 } := by
          simp [candAssets, ho, hf]
        have hcount : candValsAssetCount v = 1 := by
          simp [candValsAssetCount, ho, hf]
        have hargs : candValsArgs v = [p] := by
          simp [candValsArgs, ho, hf]
        rw [hres, hcount, hargs]
        exact upsert_asset_step pid runId (some runId) (some jobId) (some cid)
          "candidate_output" p fs ch none ts st
      · have hres : (candAssets pid runId jobId cid v fs ch ts st).2 =
            { { st with
                db := (upsert_asset st.db pid (some runId) (some jobId) (some cid)
                  "candidate_output" p fs ch none ts).2
                inserted_assets := st.inserted_assets + 1 } with
              db := (upsert_asset
                (upsert_asset st.db pid (some runId) (some jobId) (some cid)
                  "candidate_output" p fs ch none ts).2
                pid (some runId) (some jobId) (some cid)
                "candidate_final_output" q fs ch none ts).2
              inserted_assets := st.inserted_assets + 1 + 1 } := by
          simp [candAssets, ho, hf, hpq]
        have hcount : candValsAssetCount v = 2 := by
          simp [candValsAssetCount, ho, hf, hpq]
        have hargs : candValsArgs v = [p] ++ [q] := by
          simp [candValsArgs, ho, hf, hpq]
        rw [hres, hcount, hargs]
        exact ingestStep_comp
          (upsert_asset_step pid runId (some runId) (some jobId) (some cid)
            "candidate_output" p fs ch none ts st)
          (upsert_asset_step pid runId (some runId) (some jobId) (some cid)
            "candidate_final_output" q fs ch none ts
            { st with
              db := (upsert_asset st.db pid (some runId) (some jobId) (some cid)
                "candidate_output" p fs ch none ts).2
              inserted_assets := st.inserted_assets + 1 })

/-- The finishing stage of the candidate loop is an ingest step adding one
canonical candidate row and one quality report. -/
theorem candFinish_step (pid : String) (runId jobId cid : Nat) (c : Dict)
    (v : CandVals) (oa fa : Option Nat) (ts : Int) (st : IngestSt)
    (hjob : JobRef runId st.db jobId)
    (hfresh : ∀ x ∈ st.db.run_candidates, x.id < cid)
    (hcid : cid ≤ st.db.ctr) :
    IngestStep pid runId 0 0 1 0 1 [] st
      (candFinish pid runId jobId cid c v oa fa ts st) := by
  have hany : st.db.run_candidates.any (fun r => decide (r.id = cid)) = false := by
    refine List.any_eq_false.mpr fun x hx => ?_
    simp only [decide_eq_true_eq]
    exact Nat.ne_of_lt (hfresh x hx)
  simp only [candFinish, hany, Bool.false_eq_true, if_false]
  refine ⟨?_, Nat.le_succ _, rfl, rfl, rfl, ?_, ?_, ?_, ?_,
    fun _ _ _ h => h, fun _ p hp => absurd hp (List.not_mem_nil p),
    fun _ _ => rfl, rfl, rfl, rfl, rfl, rfl⟩
  · rintro ⟨⟨b1, b2⟩, bj, br⟩
    refine ⟨⟨fun a ha => Nat.lt_succ_of_lt (b1 a ha), b2⟩,
      fun j hj => Nat.lt_succ_of_lt (bj j hj), ?_⟩
    intro rr hr
    rcases List.mem_append.mp hr with hr | hr
    · exact Nat.lt_succ_of_lt (br rr hr)
    · rw [List.mem_singleton] at hr
      subst hr
      exact Nat.lt_succ_of_le hcid
  · intro _
    exact ⟨[], (List.append_nil _).symm, rfl, by simp⟩
  · intro _
    exact ⟨[], (List.append_nil _).symm, rfl, by simp⟩
  · intro _
    refine ⟨_, rfl, rfl, ?_⟩
    intro x hx
    rw [List.mem_singleton] at hx
    subst hx
    obtain ⟨j, hjm, hjp⟩ := hjob
    exact ⟨j, hjm, hjp⟩
  · intro _
    refine ⟨_, rfl, rfl, ?_⟩
    intro x hx
    rw [List.mem_singleton] at hx
    subst hx
    rfl

/-- One pass of the candidate loop body is an ingest step adding one row to
each candidate table and one quality report when the candidate is a dict,
and nothing otherwise. -/
theorem processCandidate_step (pid : String) (runId jobId : Nat)
    (fs : String → Option String) (ch : Bool) (ts : Int)
    (st : IngestSt) (cand : J) (hjob : JobRef runId st.db jobId)
    (hI : StInv st.db) :
    IngestStep pid runId 0 (candObjCount cand) (candObjCount cand)
      (candAssetCount cand) (candObjCount cand) (candUpsertArgs cand) st
      (processCandidate pid runId jobId fs ch ts st cand) := by
  cases cand with
  | obj c =>
    have h1 := candInsert_step pid runId jobId ts c
      (candVals st.inserted_candidates c) st hjob
    have hIA : StInv (candInsert jobId ts c
        (candVals st.inserted_candidates c) st.db.ctr st).db := h1.1 hI
    have h2 := candAssets_step pid runId jobId st.db.ctr
      (candVals st.inserted_candidates c) fs ch ts
      (candInsert jobId ts c (candVals st.inserted_candidates c) st.db.ctr st)
    have h12 := ingestStep_comp h1 h2
    have hIB := h12.1 hI
    obtain ⟨djB, hdjB, _, _⟩ := h12.2.2.2.2.2.1 hI
    have hjobB : JobRef runId (candAssets pid runId jobId st.db.ctr
        (candVals st.inserted_candidates c) fs ch ts
        (candInsert jobId ts c (candVals st.inserted_candidates c)
          st.db.ctr st)).2.db jobId :=
      jobRef_append hjob hdjB
    obtain ⟨drB, hdrB, hdrBl, _⟩ := h12.2.2.2.2.2.2.2.1 hI
    have hdrBnil : drB = [] := List.length_eq_zero.mp hdrBl
    have hfreshB : ∀ x ∈ (candAssets pid runId jobId st.db.ctr
        (candVals st.inserted_candidates c) fs ch ts
        (candInsert jobId ts c (candVals st.inserted_candidates c)
          st.db.ctr st)).2.db.run_candidates, x.id < st.db.ctr := by
      intro x hx
      rw [hdrB, hdrBnil, List.append_nil] at hx
      exact hI.2.2 x hx
    have hcidB : st.db.ctr ≤ (candAssets pid runId jobId st.db.ctr
        (candVals st.inserted_candidates c) fs ch ts
        (candInsert jobId ts c (candVals st.inserted_candidates c)
          st.db.ctr st)).2.db.ctr := h12.2.1
    have h3 := candFinish_step pid runId jobId st.db.ctr c
      (candVals st.inserted_candidates c)
      (candAssets pid runId jobId st.db.ctr
        (candVals st.inserted_candidates c) fs ch ts
        (candInsert jobId ts c (candVals st.inserted_candidates c)
          st.db.ctr st)).1.1
      (candAssets pid runId jobId st.db.ctr
        (candVals st.inserted_candidates c) fs ch ts
        (candInsert jobId ts c (candVals st.inserted_candidates c)
          st.db.ctr st)).1.2 ts
      (candAssets pid runId jobId st.db.ctr
        (candVals st.inserted_candidates c) fs ch ts
        (candInsert jobId ts c (candVals st.inserted_candidates c)
          st.db.ctr st)).2 hjobB hfreshB hcidB
    have hall := ingestStep_comp h12 h3
    exact ingestStep_congr hall (by omega) (by simp [candObjCount])
      (by simp [candObjCount])
      (by simp [candAssetCount, candValsAssetCount, candVals, optPath])
      (by simp [candObjCount])
      (by simp [candUpsertArgs, candValsArgs, candVals, optPath])
  | null => exact ingestStep_refl pid runId st
  | b v => exact ingestStep_refl pid runId st
  | i v => exact ingestStep_refl pid runId st
  | f v => exact ingestStep_refl pid runId st
  | s v => exact ingestStep_refl pid runId st
  | arr v => exact ingestStep_refl pid runId st

/-- The candidate fold of one job is an ingest step whose counts are the
sums over the candidate list. -/
theorem candsFold_step (pid : String) (runId jobId : Nat)
    (fs : String → Option String) (ch : Bool) (ts : Int) :
    ∀ (cs : List J) (st : IngestSt), JobRef runId st.db jobId → StInv st.db →
    IngestStep pid runId 0 ((cs.map candObjCount).sum)
      ((cs.map candObjCount).sum) ((cs.map candAssetCount).sum)
      ((cs.map candObjCount).sum) ((cs.map candUpsertArgs).flatten) st
      (cs.foldl (processCandidate pid runId jobId fs ch ts) st) := by
  intro cs
  induction cs with
  | nil =>
    intro st _ _
    simpa using ingestStep_refl pid runId st
  | cons c cs ih =>
    intro st hjob hI
    have h1 := processCandidate_step pid runId jobId fs ch ts st c hjob hI
    have hIm : StInv (processCandidate pid runId jobId fs ch ts st c).db := h1.1 hI
    obtain ⟨dj, hdj, _, _⟩ := h1.2.2.2.2.2.1 hI
    have hjobm : JobRef runId (processCandidate pid runId jobId fs ch ts st c).db jobId :=
      jobRef_append hjob hdj
    have h2 := ih (processCandidate pid runId jobId fs ch ts st c) hjobm hIm
    have hall := ingestStep_comp h1 h2
    rw [List.foldl_cons]
    exact ingestStep_congr hall (by omega) (by simp) (by simp) (by simp)
      (by simp) (by simp)

/-- The job-row insertion stage is an ingest step adding one job row. -/
theorem jobInsert_step (pid : String) (runId idx : Nat) (ts : Int) (jd : Dict)
    (st : IngestSt) :
    IngestStep pid runId 1 0 0 0 0 [] st (jobInsert runId idx ts jd st).2 := by
  refine ⟨?_, Nat.le_succ _, rfl, rfl, rfl, ?_, ?_, ?_, ?_,
    fun _ _ _ h => h, fun _ p hp => absurd hp (List.not_mem_nil p),
    fun _ _ => rfl, rfl, rfl, rfl, rfl, rfl⟩
  · rintro ⟨⟨b1, b2⟩, bj, br⟩
    refine ⟨⟨fun a ha => Nat.lt_succ_of_lt (b1 a ha), b2⟩, ?_,
      fun rr hr => Nat.lt_succ_of_lt (br rr hr)⟩
    intro j hj
    rcases List.mem_append.mp hj with hj | hj
    · exact Nat.lt_succ_of_lt (bj j hj)
    · rw [List.mem_singleton] at hj
      subst hj
      exact Nat.lt_succ_self _
  · intro _
    refine ⟨_, rfl, rfl, ?_⟩
    intro x hx
    rw [List.mem_singleton] at hx
    subst hx
    exact ⟨rfl, le_refl _⟩
  · intro _
    exact ⟨[], (List.append_nil _).symm, rfl, by simp⟩
  · intro _
    exact ⟨[], (List.append_nil _).symm, rfl, by simp⟩
  · intro _
    exact ⟨[], (List.append_nil _).symm, rfl, by simp⟩

/-- An ingest step stays an ingest step when the job table is additionally
rewritten by an id- and run-preserving row map that fixes the rows already
present at the start of the step. -/
theorem ingestStep_mapJobs {pid : String} {runId : Nat}
    {n c r a q : Nat} {args : List String} {st res : IngestSt}
    (h : IngestStep pid runId n c r a q args st res)
    (f : JobRow → JobRow)
    (hfid : ∀ j, (f j).id = j.id) (hfrun : ∀ j, (f j).run_id = j.run_id)
    (hold : StInv st.db → ∀ x ∈ st.db.run_jobs, f x = x)
    {res' : IngestSt}
    (hres' : res' =
      { res with db := { res.db with run_jobs := res.db.run_jobs.map f } }) :
    IngestStep pid runId n c r a q args st res' := by
  subst hres'
  obtain ⟨i, t, ru, au, ce, dj, dc, dr, dq, mo, es, le, x, y, z, w, v⟩ := h
  refine ⟨?_, t, ru, au, ce, ?_, ?_, ?_, dq, mo, es, le, x, y, z, w, v⟩
  · intro hs
    obtain ⟨hA, hJ, hR⟩ := i hs
    refine ⟨hA, ?_, hR⟩
    intro j hj
    obtain ⟨x0, hx0, hfx⟩ := List.mem_map.mp hj
    rw [← hfx, hfid x0]
    exact hJ x0 hx0
  · intro hs
    obtain ⟨d, e, l, p⟩ := dj hs
    refine ⟨d.map f, ?_, by rw [List.length_map]; exact l, ?_⟩
    · show res.db.run_jobs.map f = st.db.run_jobs ++ d.map f
      rw [e, List.map_append]
      congr 1
      calc st.db.run_jobs.map f = st.db.run_jobs.map id :=
            List.map_congr_left (hold hs)
        _ = st.db.run_jobs := List.map_id _
    · intro xx hx
      obtain ⟨x0, hx0, hfx⟩ := List.mem_map.mp hx
      obtain ⟨hr0, hi0⟩ := p x0 hx0
      rw [← hfx]
      exact ⟨(hfrun x0).trans hr0, by rw [hfid x0]; exact hi0⟩
  · intro hs
    obtain ⟨d, e, l, p⟩ := dc hs
    refine ⟨d, e, l, ?_⟩
    intro xx hx
    obtain ⟨j, hjm, hj1, hj2⟩ := p xx hx
    exact ⟨f j, List.mem_map_of_mem f hjm, (hfrun j).trans hj1, (hfid j).trans hj2⟩
  · intro hs
    obtain ⟨d, e, l, p⟩ := dr hs
    refine ⟨d, e, l, ?_⟩
    intro xx hx
    obtain ⟨j, hjm, hj1, hj2⟩ := p xx hx
    exact ⟨f j, List.mem_map_of_mem f hjm, (hfrun j).trans hj1, (hfid j).trans hj2⟩

set_option maxHeartbeats 3200000 in
/-- One item of the jobs loop is an ingest step whose counts are the
job-level counts. -/
theorem processJob_step (pid : String) (runId : Nat)
    (fs : String → Option String) (ch : Bool) (ts : Int) (idx : Nat)
    (st : IngestSt) (job : J) (hI : StInv st.db) :
    IngestStep pid runId (jobObjCount job) (jobCandCount job)
      (jobCandCount job) (jobAssetCount job) (jobCandCount job)
      (jobUpsertArgs job) st
      (processJob pid runId fs ch ts idx st job) := by
  cases job with
  | obj jd =>
    have hA := jobInsert_step pid runId idx ts jd st
    have hIA : StInv (jobInsert runId idx ts jd st).2.db := hA.1 hI
    have hjobA : JobRef runId (jobInsert runId idx ts jd st).2.db st.db.ctr :=
      ⟨_, List.mem_append_right _ (List.mem_singleton_self _), rfl, rfl⟩
    have hB := candsFold_step pid runId st.db.ctr fs ch ts (candListOf jd)
      (jobInsert runId idx ts jd st).2 hjobA hIA
    have hAB := ingestStep_comp hA hB
    simp only [processJob, jobFinal]
    rw [show (jobInsert runId idx ts jd st).1 = st.db.ctr from rfl]
    by_cases hfo :
        normalize_rel_path (pyStr (pyOr (pyGet jd "final_output") (J.s ""))) = ""
    · rw [if_pos hfo]
      exact ingestStep_congr hAB (by simp [jobObjCount]) (by simp [jobCandCount])
        (by simp [jobCandCount]) (by simp [jobAssetCount, hfo])
        (by simp [jobCandCount]) (by simp [jobUpsertArgs, hfo])
    · rw [if_neg hfo]
      have hC := upsert_asset_step pid runId (some runId) (some st.db.ctr) none
        "job_final_output"
        (normalize_rel_path (pyStr (pyOr (pyGet jd "final_output") (J.s ""))))
        fs ch (some [("selected_candidate", pyGet jd "selected_candidate")]) ts
        ((candListOf jd).foldl (processCandidate pid runId st.db.ctr fs ch ts)
          (jobInsert runId idx ts jd st).2)
      have hABC := ingestStep_comp hAB hC
      refine ingestStep_congr
        (ingestStep_mapJobs hABC _ ?_ ?_ ?_ rfl)
        (by simp [jobObjCount]) (by simp [jobCandCount]) (by simp [jobCandCount])
        (by simp [jobAssetCount, hfo]) (by simp [jobCandCount])
        (by simp [jobUpsertArgs, hfo])
      · intro j
        dsimp only
        split <;> rfl
      · intro j
        dsimp only
        split <;> rfl
      · intro hs x hx
        dsimp only
        rw [if_neg (Nat.ne_of_lt (hs.2.1 x hx))]
  | null => exact ingestStep_refl pid runId st
  | b v => exact ingestStep_refl pid runId st
  | i v => exact ingestStep_refl pid runId st
  | f v => exact ingestStep_refl pid runId st
  | s v => exact ingestStep_refl pid runId st
  | arr v => exact ingestStep_refl pid runId st

/-- The whole jobs loop of `ingest_run` is an ingest step whose counts are
the document-level sums. -/
theorem processJobs_step (pid : String) (runId : Nat)
    (fs : String → Option String) (ch : Bool) (ts : Int) :
    ∀ (js : List J) (idx : Nat) (st : IngestSt), StInv st.db →
    IngestStep pid runId ((js.map jobObjCount).sum) ((js.map jobCandCount).sum)
      ((js.map jobCandCount).sum) ((js.map jobAssetCount).sum)
      ((js.map jobCandCount).sum) ((js.map jobUpsertArgs).flatten) st
      (processJobs pid runId fs ch ts idx js st) := by
  intro js
  induction js with
  | nil =>
    intro idx st _
    exact ingestStep_congr (ingestStep_refl pid runId st) (by simp) (by simp)
      (by simp) (by simp) (by simp) (by simp)
  | cons j js ih =>
    intro idx st hI
    have h1 := processJob_step pid runId fs ch ts idx st j hI
    have hIm := h1.1 hI
    have h2 := ih (idx + 1) (processJob pid runId fs ch ts idx st j) hIm
    have hall := ingestStep_comp h1 h2
    simp only [processJobs]
    exact ingestStep_congr hall (by simp) (by simp) (by simp) (by simp)
      (by simp) (by simp)

/-- `find?` skips over a prefix in which nothing matches. -/
theorem find?_append_none {α : Type} {p : α → Bool} {l1 l2 : List α}
    (h : l1.find? p = none) : (l1 ++ l2).find? p = l2.find? p := by
  rw [List.find?_append, h]
  rfl

/-- The run-level `output_guard` stage is an ingest step writing `ogCount`
quality reports. -/
theorem qrStage_step (pid : String) (runId : Nat) (d : Dict) (ts : Int)
    (st : IngestSt) :
    IngestStep pid runId 0 0 0 0 (ogCount d) [] st (qrStage pid runId d ts st) := by
  cases hog : pyGet d "output_guard" with
  | obj og =>
    simp only [qrStage, hog]
    refine ingestStep_congr ?_ rfl rfl rfl rfl
      (show (1 : Nat) = ogCount d by simp [ogCount, hog]) rfl
    refine ⟨fun h => h.transport rfl rfl rfl (Nat.le_succ _), Nat.le_succ _,
      rfl, rfl, rfl,
      fun _ => ⟨[], (List.append_nil _).symm, rfl, by simp⟩,
      fun _ => ⟨[], (List.append_nil _).symm, rfl, by simp⟩,
      fun _ => ⟨[], (List.append_nil _).symm, rfl, by simp⟩,
      fun _ => ⟨_, rfl, rfl, ?_⟩,
      fun _ _ _ h => h,
      fun _ p hp => absurd hp (List.not_mem_nil p),
      fun _ _ => rfl, rfl, rfl, rfl, rfl, rfl⟩
    intro x hx
    rw [List.mem_singleton] at hx
    subst hx
    rfl
  | null =>
    simp only [qrStage, hog]
    exact ingestStep_congr (ingestStep_refl pid runId st) rfl rfl rfl rfl
      (by simp [ogCount, hog]) rfl
  | b v =>
    simp only [qrStage, hog]
    exact ingestStep_congr (ingestStep_refl pid runId st) rfl rfl rfl rfl
      (by simp [ogCount, hog]) rfl
  | i v =>
    simp only [qrStage, hog]
    exact ingestStep_congr (ingestStep_refl pid runId st) rfl rfl rfl rfl
      (by simp [ogCount, hog]) rfl
  | f v =>
    simp only [qrStage, hog]
    exact ingestStep_congr (ingestStep_refl pid runId st) rfl rfl rfl rfl
      (by simp [ogCount, hog]) rfl
  | s v =>
    simp only [qrStage, hog]
    exact ingestStep_congr (ingestStep_refl pid runId st) rfl rfl rfl rfl
      (by simp [ogCount, hog]) rfl
  | arr v =>
    simp only [qrStage, hog]
    exact ingestStep_congr (ingestStep_refl pid runId st) rfl rfl rfl rfl
      (by simp [ogCount, hog]) rfl

/-- The cost-event loop appends one cost row per extracted row, all tied to
the given run, touches no other table, and adds the row count to the
`cost_events_written` total. -/
theorem costFold_facts (pid : String) (runId : Nat) (ts : Int) :
    ∀ (rows : List CostEvRow) (st : IngestSt),
    (StInv st.db → StInv (costFold pid runId ts st rows).db) ∧
    st.db.ctr ≤ (costFold pid runId ts st rows).db.ctr ∧
    (costFold pid runId ts st rows).db.runs = st.db.runs ∧
    (costFold pid runId ts st rows).db.run_jobs = st.db.run_jobs ∧
    (costFold pid runId ts st rows).db.run_job_candidates =
      st.db.run_job_candidates ∧
    (costFold pid runId ts st rows).db.run_candidates = st.db.run_candidates ∧
    (costFold pid runId ts st rows).db.quality_reports = st.db.quality_reports ∧
    (costFold pid runId ts st rows).db.audit_events = st.db.audit_events ∧
    (costFold pid runId ts st rows).db.assets = st.db.assets ∧
    (∃ d, (costFold pid runId ts st rows).db.cost_events =
      st.db.cost_events ++ d ∧ d.length = rows.length ∧
      ∀ x ∈ d, x.run_id = some runId) ∧
    (costFold pid runId ts st rows).inserted_jobs = st.inserted_jobs ∧
    (costFold pid runId ts st rows).inserted_candidates =
      st.inserted_candidates ∧
    (costFold pid runId ts st rows).inserted_assets = st.inserted_assets ∧
    (costFold pid runId ts st rows).quality_reports_written =
      st.quality_reports_written ∧
    (costFold pid runId ts st rows).cost_events_written =
      st.cost_events_written + rows.length := by
  intro rows
  induction rows with
  | nil =>
    intro st
    exact ⟨fun h => h, le_refl _, rfl, rfl, rfl, rfl, rfl, rfl, rfl,
      ⟨[], (List.append_nil _).symm, rfl, by simp⟩, rfl, rfl, rfl, rfl, rfl⟩
  | cons row rest ih =>
    intro st
    have hstep : costFold pid runId ts st (row :: rest) =
        costFold pid runId ts
          { st with
            db := insert_cost_event st.db pid (some runId) row.provider_code
              row.operation_code row.units row.cost_usd row.currency row.meta ts
            cost_events_written := st.cost_events_written + 1 } rest := rfl
    rw [hstep]
    obtain ⟨p1, p2, p3, p4, p5, p6, p7, p8, p9, ⟨d, pd, pdl, pdr⟩,
      q1, q2, q3, q4, q5⟩ := ih
      { st with
        db := insert_cost_event st.db pid (some runId) row.provider_code
          row.operation_code row.units row.cost_usd row.currency row.meta ts
        cost_events_written := st.cost_events_written + 1 }
    obtain ⟨s1, s2, s3, s4, s5, s6, s7, s8, e, he, her⟩ :=
      insert_cost_event_shape st.db pid (some runId) row.provider_code
        row.operation_code row.units row.cost_usd row.currency row.meta ts
    have pd' : (costFold pid runId ts
        { st with
          db := insert_cost_event st.db pid (some runId) row.provider_code
            row.operation_code row.units row.cost_usd row.currency row.meta ts
          cost_events_written := st.cost_events_written + 1 }
        rest).db.cost_events = (st.db.cost_events ++ [e]) ++ d := by
      rw [← he]
      exact pd
    refine ⟨fun h => p1 (h.transport rfl rfl rfl (Nat.le_succ _)),
      le_trans (Nat.le_succ _) p2, p3, p4, p5, p6, p7, p8, p9,
      ⟨e :: d, ?_, by simp [pdl], ?_⟩, q1, q2, q3, q4, ?_⟩
    · rw [List.append_cons]
      exact pd'
    · intro x hx
      rcases List.mem_cons.mp hx with h | h
      · subst h
        exact her
      · exact pdr x h
    · rw [List.length_cons]
      refine q5.trans ?_
      show st.cost_events_written + 1 + rest.length =
        st.cost_events_written + (rest.length + 1)
      omega

/-- The closing audit event appends one audit row and bumps the id supply,
leaving every other table alone. -/
theorem auditStage_shape (pid : String) (runId : Nat) (rel : String) (ts : Int)
    (st : IngestSt) :
    (auditStage pid runId rel ts st).runs = st.db.runs ∧
    (auditStage pid runId rel ts st).run_jobs = st.db.run_jobs ∧
    (auditStage pid runId rel ts st).run_job_candidates =
      st.db.run_job_candidates ∧
    (auditStage pid runId rel ts st).run_candidates = st.db.run_candidates ∧
    (auditStage pid runId rel ts st).assets = st.db.assets ∧
    (auditStage pid runId rel ts st).quality_reports = st.db.quality_reports ∧
    (auditStage pid runId rel ts st).cost_events = st.db.cost_events ∧
    (auditStage pid runId rel ts st).ctr = st.db.ctr + 1 ∧
    ∃ a, (auditStage pid runId rel ts st).audit_events =
      st.db.audit_events ++ [a] :=
  ⟨rfl, rfl, rfl, rfl, rfl, rfl, rfl, rfl, ⟨_, rfl⟩⟩

/-- Everything one pass of the rebuild phase of `ingest_run` does, seen
from its start state: the report it returns is determined by the document
alone, all new rows are tied to the fresh run id (which is the start
state's counter), every prior row survives, and when every upsert path
already had a normalized asset row the asset table does not grow. -/
theorem ingestFrom_facts (db1 : DB) (pid : String) (doc : Dict) (rel : String)
    (fs : String → Option String) (ch : Bool) (ts : Int) (hI : StInv db1) :
    (ingestFrom db1 pid doc rel fs ch ts).2 = {
        run_id := db1.ctr
        run_log_path := rel
        jobs := docJobCount doc
        candidates := docCandCount doc
        assets_upserted := docAssetCount doc
        quality_reports_written := docQRCount doc
        cost_events_written := (extract_cost_event_rows doc).length
        status := derive_run_status doc } ∧
    db1.ctr < (ingestFrom db1 pid doc rel fs ch ts).1.ctr ∧
    StInv (ingestFrom db1 pid doc rel fs ch ts).1 ∧
    ((ingestFrom db1 pid doc rel fs ch ts).1.runs =
      db1.runs ++ [runRowOf db1 pid doc rel ts]) ∧
    (∃ dj, (ingestFrom db1 pid doc rel fs ch ts).1.run_jobs =
      db1.run_jobs ++ dj ∧ dj.length = docJobCount doc ∧
      ∀ x ∈ dj, x.run_id = db1.ctr ∧ db1.ctr < x.id) ∧
    (∃ dc, (ingestFrom db1 pid doc rel fs ch ts).1.run_job_candidates =
      db1.run_job_candidates ++ dc ∧ dc.length = docCandCount doc ∧
      ∀ x ∈ dc, ∃ j ∈ (ingestFrom db1 pid doc rel fs ch ts).1.run_jobs,
        j.run_id = db1.ctr ∧ j.id = x.job_id) ∧
    (∃ dr, (ingestFrom db1 pid doc rel fs ch ts).1.run_candidates =
      db1.run_candidates ++ dr ∧ dr.length = docCandCount doc ∧
      ∀ x ∈ dr, ∃ j ∈ (ingestFrom db1 pid doc rel fs ch ts).1.run_jobs,
        j.run_id = db1.ctr ∧ j.id = x.job_id) ∧
    (∃ dq, (ingestFrom db1 pid doc rel fs ch ts).1.quality_reports =
      db1.quality_reports ++ dq ∧ dq.length = docQRCount doc ∧
      ∀ x ∈ dq, x.run_id = some db1.ctr) ∧
    (∃ de, (ingestFrom db1 pid doc rel fs ch ts).1.cost_events =
      db1.cost_events ++ de ∧
      de.length = (extract_cost_event_rows doc).length ∧
      ∀ x ∈ de, x.run_id = some db1.ctr) ∧
    (∀ pid' q, SW pid' q db1.assets →
      SW pid' q (ingestFrom db1 pid doc rel fs ch ts).1.assets) ∧
    SWAll pid (docUpsertArgs doc)
      (ingestFrom db1 pid doc rel fs ch ts).1.assets ∧
    (SWAll pid (docUpsertArgs doc) db1.assets →
      (ingestFrom db1 pid doc rel fs ch ts).1.assets.length =
        db1.assets.length) := by
  have hI0 : StInv (ingestSt0 db1 pid doc rel ts).db :=
    hI.transport rfl rfl rfl (Nat.le_succ _)
  have hfst : (ingestFrom db1 pid doc rel fs ch ts).1 =
      auditStage pid db1.ctr rel ts
        (costFold pid db1.ctr ts
          (qrStage pid db1.ctr doc ts
            (processJobs pid db1.ctr fs ch ts 1 (jobsOf doc)
              (ingestSt0 db1 pid doc rel ts)))
          (extract_cost_event_rows doc)) := rfl
  have hsnd : (ingestFrom db1 pid doc rel fs ch ts).2 =
      reportOf db1.ctr rel (derive_run_status doc)
        (costFold pid db1.ctr ts
          (qrStage pid db1.ctr doc ts
            (processJobs pid db1.ctr fs ch ts 1 (jobsOf doc)
              (ingestSt0 db1 pid doc rel ts)))
          (extract_cost_event_rows doc)) := rfl
  rw [hfst, hsnd]
  have hJ := processJobs_step pid db1.ctr fs ch ts (jobsOf doc) 1
    (ingestSt0 db1 pid doc rel ts) hI0
  have hQ := qrStage_step pid db1.ctr doc ts
    (processJobs pid db1.ctr fs ch ts 1 (jobsOf doc)
      (ingestSt0 db1 pid doc rel ts))
  obtain ⟨iP, tP, ruP, auP, ceP, djP, dcP, drP, dqP, moP, esP, leP,
    cxP, cyP, czP, cwP, cvP⟩ := ingestStep_comp hJ hQ
  obtain ⟨c1, c2, c3, c4, c5, c6, c7, c8, c9, ⟨de, hde, hdel, hder⟩,
    q1, q2, q3, q4, q5⟩ :=
    costFold_facts pid db1.ctr ts (extract_cost_event_rows doc)
      (qrStage pid db1.ctr doc ts
        (processJobs pid db1.ctr fs ch ts 1 (jobsOf doc)
          (ingestSt0 db1 pid doc rel ts)))
  obtain ⟨s1, s2, s3, s4, s5, s6, s7, s8, arow, harow⟩ :=
    auditStage_shape pid db1.ctr rel ts
      (costFold pid db1.ctr ts
        (qrStage pid db1.ctr doc ts
          (processJobs pid db1.ctr fs ch ts 1 (jobsOf doc)
            (ingestSt0 db1 pid doc rel ts)))
        (extract_cost_event_rows doc))
  have h0ctr : (ingestSt0 db1 pid doc rel ts).db.ctr = db1.ctr + 1 := rfl
  refine ⟨?_, ?_, ?_, ?_, ?_, ?_, ?_, ?_, ?_, ?_, ?_, ?_⟩
  · have hjobs : (costFold pid db1.ctr ts
        (qrStage pid db1.ctr doc ts
          (processJobs pid db1.ctr fs ch ts 1 (jobsOf doc)
            (ingestSt0 db1 pid doc rel ts)))
        (extract_cost_event_rows doc)).inserted_jobs = docJobCount doc := by
      rw [q1, cxP]
      simp [ingestSt0, docJobCount]
    have hcands : (costFold pid db1.ctr ts
        (qrStage pid db1.ctr doc ts
          (processJobs pid db1.ctr fs ch ts 1 (jobsOf doc)
            (ingestSt0 db1 pid doc rel ts)))
        (extract_cost_event_rows doc)).inserted_candidates = docCandCount doc := by
      rw [q2, cyP]
      simp [ingestSt0, docCandCount]
    have hassets : (costFold pid db1.ctr ts
        (qrStage pid db1.ctr doc ts
          (processJobs pid db1.ctr fs ch ts 1 (jobsOf doc)
            (ingestSt0 db1 pid doc rel ts)))
        (extract_cost_event_rows doc)).inserted_assets = docAssetCount doc := by
      rw [q3, czP]
      simp [ingestSt0, docAssetCount]
    have hqrw : (costFold pid db1.ctr ts
        (qrStage pid db1.ctr doc ts
          (processJobs pid db1.ctr fs ch ts 1 (jobsOf doc)
            (ingestSt0 db1 pid doc rel ts)))
        (extract_cost_event_rows doc)).quality_reports_written =
          docQRCount doc := by
      rw [q4, cwP]
      simp [ingestSt0, docQRCount, docCandCount]
    have hcostw : (costFold pid db1.ctr ts
        (qrStage pid db1.ctr doc ts
          (processJobs pid db1.ctr fs ch ts 1 (jobsOf doc)
            (ingestSt0 db1 pid doc rel ts)))
        (extract_cost_event_rows doc)).cost_events_written =
          (extract_cost_event_rows doc).length := by
      rw [q5, cvP]
      simp [ingestSt0]
    simp only [reportOf]
    rw [hjobs, hcands, hassets, hqrw, hcostw]
  · rw [s8]
    omega
  · exact (c1 (iP hI0)).transport s5 s2 s4 (by rw [s8]; exact Nat.le_succ _)
  · rw [s1, c3, ruP]
    rfl
  · obtain ⟨dj0, hdj, hdjl, hdjp⟩ := djP hI0
    refine ⟨dj0, ?_, ?_, ?_⟩
    · rw [s2, c4, hdj]
      rfl
    · rw [hdjl]
      simp [docJobCount]
    · intro x hx
      obtain ⟨hx1, hx2⟩ := hdjp x hx
      exact ⟨hx1, hx2⟩
  · obtain ⟨dc0, hdc, hdcl, hdcp⟩ := dcP hI0
    refine ⟨dc0, ?_, ?_, ?_⟩
    · rw [s3, c5, hdc]
      rfl
    · rw [hdcl]
      simp [docCandCount]
    · intro x hx
      obtain ⟨j, hj, hj1, hj2⟩ := hdcp x hx
      refine ⟨j, ?_, hj1, hj2⟩
      rw [s2, c4]
      exact hj
  · obtain ⟨dr0, hdr, hdrl, hdrp⟩ := drP hI0
    refine ⟨dr0, ?_, ?_, ?_⟩
    · rw [s4, c6, hdr]
      rfl
    · rw [hdrl]
      simp [docCandCount]
    · intro x hx
      obtain ⟨j, hj, hj1, hj2⟩ := hdrp x hx
      refine ⟨j, ?_, hj1, hj2⟩
      rw [s2, c4]
      exact hj
  · obtain ⟨dq0, hdq, hdql, hdqp⟩ := dqP hI0
    refine ⟨dq0, ?_, ?_, hdqp⟩
    · rw [s6, c7, hdq]
      rfl
    · rw [hdql]
      simp [docQRCount, docCandCount]
  · refine ⟨de, ?_, hdel, hder⟩
    rw [s7, hde, ceP]
    rfl
  · intro pid' qq hsw
    rw [s5, c9]
    exact moP hI0 pid' qq hsw
  · intro p hp
    rw [s5, c9]
    exact esP hI0 p (by rw [List.append_nil]; exact hp)
  · intro hsw
    rw [s5, c9]
    exact leP hI0 (fun p hp => hsw p (by rw [List.append_nil] at hp; exact hp))

/-- Deleting the run that a rebuild pass just created undoes the pass on
every table the delete touches: with well-formed prior rows (all ids below
the old counter) the filters keep exactly the prior rows. -/
theorem deleteRun_undo (db dbF : DB) (rid : Nat) (hWF : DB.WF db)
    (hrid : db.ctr ≤ rid)
    (rr : RunRow) (dj : List JobRow) (dc : List CandRow) (dr : List RunCandRow)
    (dq : List QRRow) (de : List CostRow)
    (hruns : dbF.runs = db.runs ++ [rr]) (hrrid : rr.id = rid)
    (hjobs : dbF.run_jobs = db.run_jobs ++ dj)
    (hdj : ∀ x ∈ dj, x.run_id = rid ∧ db.ctr < x.id)
    (hrjc : dbF.run_job_candidates = db.run_job_candidates ++ dc)
    (hdc : ∀ x ∈ dc, ∃ j ∈ dbF.run_jobs, j.run_id = rid ∧ j.id = x.job_id)
    (hrcs : dbF.run_candidates = db.run_candidates ++ dr)
    (hdr : ∀ x ∈ dr, ∃ j ∈ dbF.run_jobs, j.run_id = rid ∧ j.id = x.job_id)
    (hqrs : dbF.quality_reports = db.quality_reports ++ dq)
    (hdq : ∀ x ∈ dq, x.run_id = some rid)
    (hces : dbF.cost_events = db.cost_events ++ de)
    (hde : ∀ x ∈ de, x.run_id = some rid) :
    (deleteRun dbF rid).runs = db.runs ∧
    (deleteRun dbF rid).run_jobs = db.run_jobs ∧
    (deleteRun dbF rid).run_job_candidates = db.run_job_candidates ∧
    (deleteRun dbF rid).run_candidates = db.run_candidates ∧
    (deleteRun dbF rid).quality_reports = db.quality_reports ∧
    (deleteRun dbF rid).cost_events = db.cost_events ∧
    (deleteRun dbF rid).assets = dbF.assets ∧
    (deleteRun dbF rid).audit_events = dbF.audit_events ∧
    (deleteRun dbF rid).ctr = dbF.ctr := by
  obtain ⟨w1, w2, w3, w4, w5, w6, _⟩ := hWF
  have hdead : dbF.run_jobs.filter (fun j => decide (j.run_id = rid)) = dj := by
    rw [hjobs, List.filter_append]
    have h1 : db.run_jobs.filter (fun j => decide (j.run_id = rid)) = [] := by
      rw [List.filter_eq_nil_iff]
      intro j hj
      simp only [decide_eq_true_eq]
      have h := (w2 j hj).2
      omega
    have h2 : dj.filter (fun j => decide (j.run_id = rid)) = dj := by
      rw [List.filter_eq_self]
      intro j hj
      simp only [decide_eq_true_eq]
      exact (hdj j hj).1
    rw [h1, h2, List.nil_append]
  have hrunsF : dbF.runs.filter (fun r => decide (¬ r.id = rid)) = db.runs := by
    rw [hruns, List.filter_append]
    have h1 : db.runs.filter (fun r => decide (¬ r.id = rid)) = db.runs := by
      rw [List.filter_eq_self]
      intro r hr
      simp only [decide_eq_true_eq]
      have h := w1 r hr
      omega
    have h2 : [rr].filter (fun r => decide (¬ r.id = rid)) = [] := by
      simp [List.filter, hrrid]
    rw [h1, h2, List.append_nil]
  have hjobsF : dbF.run_jobs.filter (fun j => decide (¬ j.run_id = rid)) =
      db.run_jobs := by
    rw [hjobs, List.filter_append]
    have h1 : db.run_jobs.filter (fun j => decide (¬ j.run_id = rid)) =
        db.run_jobs := by
      rw [List.filter_eq_self]
      intro j hj
      simp only [decide_eq_true_eq]
      have h := (w2 j hj).2
      omega
    have h2 : dj.filter (fun j => decide (¬ j.run_id = rid)) = [] := by
      rw [List.filter_eq_nil_iff]
      intro j hj
      simp only [decide_eq_true_eq, not_not]
      exact (hdj j hj).1
    rw [h1, h2, List.append_nil]
  have hrjcF : dbF.run_job_candidates.filter
      (fun c => decide (¬ (dj.map (fun j => j.id)).contains c.job_id)) =
      db.run_job_candidates := by
    rw [hrjc, List.filter_append]
    have h1 : db.run_job_candidates.filter
        (fun c => decide (¬ (dj.map (fun j => j.id)).contains c.job_id)) =
        db.run_job_candidates := by
      rw [List.filter_eq_self]
      intro c hc
      simp only [decide_eq_true_eq]
      intro hcont
      obtain ⟨j, hjmem, hjid⟩ := List.mem_map.mp (List.elem_iff.mp hcont)
      have h3 := w3 c hc
      have h4 := (hdj j hjmem).2
      omega
    have h2 : dc.filter
        (fun c => decide (¬ (dj.map (fun j => j.id)).contains c.job_id)) = [] := by
      rw [List.filter_eq_nil_iff]
      intro c hc
      simp only [decide_eq_true_eq, not_not]
      obtain ⟨j, hjF, hjrun, hjid⟩ := hdc c hc
      have hjdj : j ∈ dj := by
        rw [hjobs] at hjF
        rcases List.mem_append.mp hjF with h | h
        · exact absurd hjrun (by have := (w2 j h).2; omega)
        · exact h
      exact List.elem_iff.mpr (List.mem_map.mpr ⟨j, hjdj, hjid⟩)
    rw [h1, h2, List.append_nil]
  have hrcF : dbF.run_candidates.filter
      (fun c => decide (¬ (dj.map (fun j => j.id)).contains c.job_id)) =
      db.run_candidates := by
    rw [hrcs, List.filter_append]
    have h1 : db.run_candidates.filter
        (fun c => decide (¬ (dj.map (fun j => j.id)).contains c.job_id)) =
        db.run_candidates := by
      rw [List.filter_eq_self]
      intro c hc
      simp only [decide_eq_true_eq]
      intro hcont
      obtain ⟨j, hjmem, hjid⟩ := List.mem_map.mp (List.elem_iff.mp hcont)
      have h3 := (w4 c hc).2
      have h4 := (hdj j hjmem).2
      omega
    have h2 : dr.filter
        (fun c => decide (¬ (dj.map (fun j => j.id)).contains c.job_id)) = [] := by
      rw [List.filter_eq_nil_iff]
      intro c hc
      simp only [decide_eq_true_eq, not_not]
      obtain ⟨j, hjF, hjrun, hjid⟩ := hdr c hc
      have hjdj : j ∈ dj := by
        rw [hjobs] at hjF
        rcases List.mem_append.mp hjF with h | h
        · exact absurd hjrun (by have := (w2 j h).2; omega)
        · exact h
      exact List.elem_iff.mpr (List.mem_map.mpr ⟨j, hjdj, hjid⟩)
    rw [h1, h2, List.append_nil]
  have hqrF : dbF.quality_reports.filter
      (fun q => decide (¬ q.run_id = some rid)) = db.quality_reports := by
    rw [hqrs, List.filter_append]
    have h1 : db.quality_reports.filter
        (fun q => decide (¬ q.run_id = some rid)) = db.quality_reports := by
      rw [List.filter_eq_self]
      intro q hq
      simp only [decide_eq_true_eq]
      intro heq
      have h := w5 q hq rid heq
      omega
    have h2 : dq.filter (fun q => decide (¬ q.run_id = some rid)) = [] := by
      rw [List.filter_eq_nil_iff]
      intro q hq
      simp only [decide_eq_true_eq, not_not]
      exact hdq q hq
    rw [h1, h2, List.append_nil]
  have hceF : dbF.cost_events.filter
      (fun c => decide (¬ c.run_id = some rid)) = db.cost_events := by
    rw [hces, List.filter_append]
    have h1 : db.cost_events.filter
        (fun c => decide (¬ c.run_id = some rid)) = db.cost_events := by
      rw [List.filter_eq_self]
      intro c hc
      simp only [decide_eq_true_eq]
      intro heq
      have h := w6 c hc rid heq
      omega
    have h2 : de.filter (fun c => decide (¬ c.run_id = some rid)) = [] := by
      rw [List.filter_eq_nil_iff]
      intro c hc
      simp only [decide_eq_true_eq, not_not]
      exact hde c hc
    rw [h1, h2, List.append_nil]
  refine ⟨hrunsF, hjobsF, ?_, ?_, hqrF, hceF, rfl, rfl, rfl⟩
  · show dbF.run_job_candidates.filter
      (fun c => decide (¬ ((dbF.run_jobs.filter
        (fun j => decide (j.run_id = rid))).map (fun j => j.id)).contains
          c.job_id)) = db.run_job_candidates
    simp only [hdead]
    exact hrjcF
  · show dbF.run_candidates.filter
      (fun c => decide (¬ ((dbF.run_jobs.filter
        (fun j => decide (j.run_id = rid))).map (fun j => j.id)).contains
          c.job_id)) = db.run_candidates
    simp only [hdead]
    exact hrcF

/-- C2: run ingestion is idempotent.  Starting from a well-formed database
with no run for `(project_id, run_log_path)`, ingesting the same exception-free
run-log document twice yields identical row counts for runs, jobs,
candidates (both tables), assets, quality reports and cost events — the
second ingest deletes the first run (cascading its dependent rows) before
reinserting — and the two reports agree on every observable aggregate
while the second run gets a fresh, strictly larger run id. -/
theorem ingest_run_idempotent (db : DB) (pid rel : String) (doc : Dict)
    (fs : String → Option String) (ch : Bool) (ts1 ts2 : Int)
    (hWF : DB.WF db) (_hSafe : ingestSafe doc = true)
    (hNo : ∀ r ∈ db.runs, ¬ (r.project_id = pid ∧ r.run_log_path = rel)) :
    (ingest_run (ingest_run db pid doc rel fs ch ts1).1 pid doc rel fs ch
        ts2).1.runs.length =
      (ingest_run db pid doc rel fs ch ts1).1.runs.length ∧
    (ingest_run (ingest_run db pid doc rel fs ch ts1).1 pid doc rel fs ch
        ts2).1.run_jobs.length =
      (ingest_run db pid doc rel fs ch ts1).1.run_jobs.length ∧
    (ingest_run (ingest_run db pid doc rel fs ch ts1).1 pid doc rel fs ch
        ts2).1.run_job_candidates.length =
      (ingest_run db pid doc rel fs ch ts1).1.run_job_candidates.length ∧
    (ingest_run (ingest_run db pid doc rel fs ch ts1).1 pid doc rel fs ch
        ts2).1.run_candidates.length =
      (ingest_run db pid doc rel fs ch ts1).1.run_candidates.length ∧
    (ingest_run (ingest_run db pid doc rel fs ch ts1).1 pid doc rel fs ch
        ts2).1.assets.length =
      (ingest_run db pid doc rel fs ch ts1).1.assets.length ∧
    (ingest_run (ingest_run db pid doc rel fs ch ts1).1 pid doc rel fs ch
        ts2).1.quality_reports.length =
      (ingest_run db pid doc rel fs ch ts1).1.quality_reports.length ∧
    (ingest_run (ingest_run db pid doc rel fs ch ts1).1 pid doc rel fs ch
        ts2).1.cost_events.length =
      (ingest_run db pid doc rel fs ch ts1).1.cost_events.length ∧
    (ingest_run (ingest_run db pid doc rel fs ch ts1).1 pid doc rel fs ch
        ts2).2.jobs = (ingest_run db pid doc rel fs ch ts1).2.jobs ∧
    (ingest_run (ingest_run db pid doc rel fs ch ts1).1 pid doc rel fs ch
        ts2).2.candidates = (ingest_run db pid doc rel fs ch ts1).2.candidates ∧
    (ingest_run (ingest_run db pid doc rel fs ch ts1).1 pid doc rel fs ch
        ts2).2.assets_upserted =
      (ingest_run db pid doc rel fs ch ts1).2.assets_upserted ∧
    (ingest_run (ingest_run db pid doc rel fs ch ts1).1 pid doc rel fs ch
        ts2).2.quality_reports_written =
      (ingest_run db pid doc rel fs ch ts1).2.quality_reports_written ∧
    (ingest_run (ingest_run db pid doc rel fs ch ts1).1 pid doc rel fs ch
        ts2).2.cost_events_written =
      (ingest_run db pid doc rel fs ch ts1).2.cost_events_written ∧
    (ingest_run (ingest_run db pid doc rel fs ch ts1).1 pid doc rel fs ch
        ts2).2.status = (ingest_run db pid doc rel fs ch ts1).2.status ∧
    (ingest_run (ingest_run db pid doc rel fs ch ts1).1 pid doc rel fs ch
        ts2).2.run_log_path =
      (ingest_run db pid doc rel fs ch ts1).2.run_log_path ∧
    (ingest_run db pid doc rel fs ch ts1).2.run_id <
      (ingest_run (ingest_run db pid doc rel fs ch ts1).1 pid doc rel fs ch
        ts2).2.run_id := by
  have hfind1 : db.runs.find? (fun r =>
      decide (r.project_id = pid ∧ r.run_log_path = rel)) = none :=
    List.find?_eq_none.mpr (fun r hr => by
      simp only [decide_eq_true_eq]
      exact hNo r hr)
  have hP1 : ingest_run db pid doc rel fs ch ts1 =
      ingestFrom db pid doc rel fs ch ts1 := by
    simp only [ingest_run, hfind1]
  rw [hP1]
  have hInv : StInv db :=
    ⟨hWF.2.2.2.2.2.2, fun j hj => (hWF.2.1 j hj).1,
     fun c hc => (hWF.2.2.2.1 c hc).1⟩
  obtain ⟨hrep1, hctr1, hInv1, hruns1, ⟨dj, hdj1, hdjl1, hdjp1⟩,
    ⟨dc, hdc1, hdcl1, hdcp1⟩, ⟨dr, hdr1, hdrl1, hdrp1⟩,
    ⟨dq, hdq1, hdql1, hdqp1⟩, ⟨de, hde1, hdel1, hdep1⟩,
    hmo1, hsw1, hlen1⟩ := ingestFrom_facts db pid doc rel fs ch ts1 hInv
  have hfind2 : (ingestFrom db pid doc rel fs ch ts1).1.runs.find?
      (fun r => decide (r.project_id = pid ∧ r.run_log_path = rel)) =
      some (runRowOf db pid doc rel ts1) := by
    rw [hruns1, find?_append_none hfind1]
    have hp : decide ((runRowOf db pid doc rel ts1).project_id = pid ∧
        (runRowOf db pid doc rel ts1).run_log_path = rel) = true :=
      decide_eq_true ⟨rfl, rfl⟩
    simp [List.find?, hp]
  have hP2 : ingest_run (ingestFrom db pid doc rel fs ch ts1).1 pid doc rel
      fs ch ts2 =
      ingestFrom (deleteRun (ingestFrom db pid doc rel fs ch ts1).1 db.ctr)
        pid doc rel fs ch ts2 := by
    simp only [ingest_run, hfind2]
    rfl
  rw [hP2]
  obtain ⟨u1, u2, u3, u4, u5, u6, u7, u8, u9⟩ :=
    deleteRun_undo db (ingestFrom db pid doc rel fs ch ts1).1 db.ctr hWF
      (le_refl _) (runRowOf db pid doc rel ts1) dj dc dr dq de
      hruns1 rfl hdj1 hdjp1 hdc1 hdcp1 hdr1 hdrp1 hdq1 hdqp1 hde1 hdep1
  have hInvD : StInv (deleteRun (ingestFrom db pid doc rel fs ch ts1).1
      db.ctr) := by
    obtain ⟨⟨b1, b2⟩, bj, br⟩ := hInv1
    refine ⟨⟨?_, ?_⟩, ?_, ?_⟩
    · intro a ha
      rw [u7] at ha
      rw [u9]
      exact b1 a ha
    · rw [u7]
      exact b2
    · intro j hj
      rw [u2] at hj
      rw [u9]
      exact lt_of_lt_of_le (hWF.2.1 j hj).1 (le_of_lt hctr1)
    · intro c hc
      rw [u4] at hc
      rw [u9]
      exact lt_of_lt_of_le (hWF.2.2.2.1 c hc).1 (le_of_lt hctr1)
  obtain ⟨hrep2, hctr2, hInv2, hruns2, ⟨dj2, hdj2, hdjl2, hdjp2⟩,
    ⟨dc2, hdc2, hdcl2, hdcp2⟩, ⟨dr2, hdr2, hdrl2, hdrp2⟩,
    ⟨dq2, hdq2, hdql2, hdqp2⟩, ⟨de2, hde2, hdel2, hdep2⟩,
    hmo2, hsw2, hlen2⟩ :=
    ingestFrom_facts (deleteRun (ingestFrom db pid doc rel fs ch ts1).1
      db.ctr) pid doc rel fs ch ts2 hInvD
  have hswD : SWAll pid (docUpsertArgs doc)
      (deleteRun (ingestFrom db pid doc rel fs ch ts1).1 db.ctr).assets := by
    intro p hp
    rw [u7]
    exact hsw1 p hp
  have hlenD := hlen2 hswD
  refine ⟨?_, ?_, ?_, ?_, ?_, ?_, ?_, ?_, ?_, ?_, ?_, ?_, ?_, ?_, ?_⟩
  · rw [hruns2, hruns1, u1]
    simp [List.length_append]
  · rw [hdj2, hdj1, u2]
    simp [List.length_append, hdjl1, hdjl2]
  · rw [hdc2, hdc1, u3]
    simp [List.length_append, hdcl1, hdcl2]
  · rw [hdr2, hdr1, u4]
    simp [List.length_append, hdrl1, hdrl2]
  · rw [hlenD, u7]
  · rw [hdq2, hdq1, u5]
    simp [List.length_append, hdql1, hdql2]
  · rw [hde2, hde1, u6]
    simp [List.length_append, hdel1, hdel2]
  · rw [hrep2, hrep1]
  · rw [hrep2, hrep1]
  · rw [hrep2, hrep1]
  · rw [hrep2, hrep1]
  · rw [hrep2, hrep1]
  · rw [hrep2, hrep1]
  · rw [hrep2, hrep1]
  · rw [hrep2, hrep1]
    show db.ctr < (deleteRun (ingestFrom db pid doc rel fs ch ts1).1
      db.ctr).ctr
    rw [u9]
    exact hctr1

/-- Witness for C2: double ingest of a one-job document into an empty
database preserves the run count and hands the second ingest a strictly
larger run id. -/
theorem ingest_run_idempotent_witness :
    (ingest_run (ingest_run (DB.mk [] [] [] [] [] [] [] [] 0) "p"
        [("jobs", J.arr [J.obj [("status", J.s "done"),
          ("output", J.s "out/a.png")]])] "runs/r1.json" (fun _ => none)
        false 0).1 "p"
      [("jobs", J.arr [J.obj [("status", J.s "done"),
        ("output", J.s "out/a.png")]])] "runs/r1.json" (fun _ => none)
      false 1).1.runs.length =
    (ingest_run (DB.mk [] [] [] [] [] [] [] [] 0) "p"
      [("jobs", J.arr [J.obj [("status", J.s "done"),
        ("output", J.s "out/a.png")]])] "runs/r1.json" (fun _ => none)
      false 0).1.runs.length ∧
    (ingest_run (DB.mk [] [] [] [] [] [] [] [] 0) "p"
      [("jobs", J.arr [J.obj [("status", J.s "done"),
        ("output", J.s "out/a.png")]])] "runs/r1.json" (fun _ => none)
      false 0).2.run_id <
    (ingest_run (ingest_run (DB.mk [] [] [] [] [] [] [] [] 0) "p"
        [("jobs", J.arr [J.obj [("status", J.s "done"),
          ("output", J.s "out/a.png")]])] "runs/r1.json" (fun _ => none)
        false 0).1 "p"
      [("jobs", J.arr [J.obj [("status", J.s "done"),
        ("output", J.s "out/a.png")]])] "runs/r1.json" (fun _ => none)
      false 1).2.run_id := by
  have h := ingest_run_idempotent (DB.mk [] [] [] [] [] [] [] [] 0) "p"
    "runs/r1.json"
    [("jobs", J.arr [J.obj [("status", J.s "done"),
      ("output", J.s "out/a.png")]])]
    (fun _ => none) false 0 1
    (by refine ⟨?_, ?_, ?_, ?_, ?_, ?_, ?_, ?_⟩ <;> simp)
    (by rfl)
    (by simp)
  exact ⟨h.1, h.2.2.2.2.2.2.2.2.2.2.2.2.2.2⟩

end Kroma
